import Mathlib

/-!
# async_http: a verification development

Shallow embedding of `include/async_http.hpp` (the request engine
`async_http::async_http_request_t`) together with theorems about it.

Modelling conventions

* `std::string` / `std::string_view` are byte strings: `Str = List Byte` with
  `Byte = Fin 256`.  String literals of the source are written `bytes "..."`.
* The transport (`impl::tcp_socket_t`) and the clock
  (`std::chrono::system_clock::now()`) are external.  Every member function
  that talks to them takes their answers as an extra argument and returns the
  list of operations it issued (`Event`), in program order.
* Time points are integers counting milliseconds.
* Code that can fail to return (an empty `std::function` invoked inside a
  `noexcept` function, a C-string read that runs off the scratch buffer)
  returns `Except Fault _`.
-/

namespace async_http

/-! ## Byte strings -/

/-- One `char` of a `std::string`, as the value of its `unsigned char` cast. -/
abbrev Byte := Fin 256

/-- A `std::string` / `std::string_view`: a finite sequence of bytes. -/
abbrev Str := List Byte

/-- The bytes of an ASCII string literal of the source. -/
def bytes (s : String) : Str := s.toList.map (fun c => Fin.ofNat c.toNat)

/-- Carriage return, `'\r'`. -/
def CR : Byte := 13

/-- Line feed, `'\n'`. -/
def LF : Byte := 10

/-! ## `url_encode` and `to_hex` (lines 367-389) -/

/-- `std::isalnum` in the default "C" locale: true exactly for the ASCII
digits and letters (false for every byte above 127). -/
def isalnum (c : Byte) : Bool :=
  (48 ≤ c.val && c.val ≤ 57) || (65 ≤ c.val && c.val ≤ 90) || (97 ≤ c.val && c.val ≤ 122)

/-- `std::string::find(char)`: the index of the first occurrence of `c` in `s`,
or `none` for `npos`. -/
def find_char_from : Str → Byte → Option Nat
  | [], _ => none
  | a :: t, c => if a = c then some 0 else (find_char_from t c).map (· + 1)

/-- The constant `safe_chars` of `url_encode`. -/
def safe_chars : Str :=
  bytes "0123456789ABCDEFGHIJKLMNOPQRSTUVWXYZabcdefghijklmnopqrstuvwxyz-_.~"

/-- The constant `hex_digits` of `to_hex`. -/
def hex_digits : Str := bytes "0123456789ABCDEF"

/-- `to_hex(unsigned char c)`: pushes `hex_digits[c >> 4]` and then
`hex_digits[c & 15]`. -/
def to_hex (c : Byte) : Str :=
  let result : Str := []
  let result := result ++ [hex_digits.getD (c.val >>> 4) 0]
  let result := result ++ [hex_digits.getD (c.val &&& 15) 0]
  result

/-- `url_encode(data)`: the loop `for (char c : data)` with its accumulator
`encoded_data`. -/
def url_encode_loop (encoded_data : Str) : Str → Str
  | [] => encoded_data
  | c :: data =>
    if isalnum c || (find_char_from safe_chars c).isSome then
      url_encode_loop (encoded_data ++ [c]) data
    else
      url_encode_loop (encoded_data ++ (bytes "%" ++ to_hex c)) data

/-- `url_encode(data)`. -/
def url_encode (data : Str) : Str := url_encode_loop [] data

/-! ## `parse_url` (lines 347-365) -/

/-- `std::string_view::find(const char*)`: the position of the first occurrence
of `pat` in `s`, or `none` for `npos`. -/
def find (s pat : Str) : Option Nat :=
  match s with
  | [] => if pat.isPrefixOf [] then some 0 else none
  | c :: t => if pat.isPrefixOf (c :: t) then some 0 else (find t pat).map (· + 1)

/-- `std::string_view::find(char c, size_t pos)`: the first index `i ≥ pos` with
`s[i] = c`, or `none` for `npos`. -/
def find_char (s : Str) (c : Byte) (pos : Nat) : Option Nat :=
  (find_char_from (s.drop pos) c).map (· + pos)

/-- `url.substr(pos)`, for `pos ≤ url.size()`. -/
def substr (s : Str) (pos : Nat) : Str := s.drop pos

/-- `url.substr(pos, count)`, for `pos ≤ url.size()`. -/
def substr_n (s : Str) (pos count : Nat) : Str := (s.drop pos).take count

/-- `parse_url(url, host, path)`: `none` when it returns `false`, otherwise the
values stored in `host` and `path`. -/
def parse_url (url : Str) : Option (Str × Str) :=
  match find url (bytes "://") with
  | none => none
  | some protocol_pos =>
    let protocol_pos := protocol_pos + 3
    match find_char url 47 protocol_pos with
    | none => some (substr url protocol_pos, bytes "/")
    | some host_end =>
      some (substr_n url protocol_pos (host_end - protocol_pos), substr url host_end)

/-! ## The engine `async_http_request_t` (lines 206-405) -/

/-- `enum class content_type_t`: a value of the underlying type `int`; the four
enumerators are 0, 1, 2, 3 and any other value can be produced by a cast. -/
structure content_type_t where
  value : Int
  deriving DecidableEq, Repr

/-- Enumerator `content_type_t::form_urlencoded`. -/
def content_type_t.form_urlencoded : content_type_t := ⟨0⟩

/-- Enumerator `content_type_t::json`. -/
def content_type_t.json : content_type_t := ⟨1⟩

/-- Enumerator `content_type_t::xml`. -/
def content_type_t.xml : content_type_t := ⟨2⟩

/-- Enumerator `content_type_t::text`. -/
def content_type_t.text : content_type_t := ⟨3⟩

/-- What the engine does to the outside world: a call of one of the four
transport operations, or an invocation of a callback `f` with a response text. -/
inductive Event (Cb : Type) where
  | connect (host : Str) (port : Nat)
  | send (data : Str)
  | receive (len : Nat)
  | close
  | callback (f : Cb) (response : Str)
  deriving DecidableEq, Repr

/-- Ways in which a member function fails to return: `std::bad_function_call`
escaping a `noexcept` function (an empty stored callback is invoked), or the
C-string read of the scratch buffer finding no terminating zero byte inside it. -/
inductive Fault where
  | bad_function_call
  | buffer_overrun
  deriving DecidableEq, Repr

/-- The data members of `async_http_request_t` (the socket itself is external).
`headers` lists the entries of the `std::unordered_map` in its iteration order;
`callback = none` is the empty `std::function`. -/
structure async_http_request_t (Cb : Type) where
  packet_timeout : Int
  response_buffer : List Byte
  request : Str
  response : Str
  headers : List (Str × Str)
  ready_to_receive : Bool
  callback : Option Cb
  deriving DecidableEq, Repr

/-- What the transport and the clock answer during one call of `serve`:
`send` is the result of `socket.send`; `recv` is what `recv()` delivers (`none`:
it reports an error or would block, `some chunk`: it stores `chunk`); `now1` and
`now2` are the first and the second sample of `system_clock::now()` taken during
the call. -/
structure Poll where
  send : Bool
  recv : Option Str
  now1 : Int
  now2 : Int
  deriving DecidableEq, Repr

variable {Cb : Type}

/-- The constructor: `response_buffer(4096)`, `ready_to_receive(false)`, every
other member default-initialised. -/
def async_http_request_t.init : async_http_request_t Cb where
  packet_timeout := 0
  response_buffer := List.replicate 4096 0
  request := []
  response := []
  headers := []
  ready_to_receive := false
  callback := none

/-- `get_header(name)`. -/
def async_http_request_t.get_header (self : async_http_request_t Cb) (name : Str) : Str :=
  match self.headers.find? (fun h => h.1 = name) with
  | some it => it.2
  | none => bytes ""

/-- `headers[name] = value` when the map already holds an entry named `name`:
the value is assigned in place; nothing is inserted, so the iteration order
stays as it is. -/
def headers_replace (name value : Str) : List (Str × Str) → List (Str × Str)
  | [] => []
  | h :: hs => if h.1 = name then (name, value) :: hs else h :: headers_replace name value hs

/-- `headers[name] = value` on the entries in iteration order.  When the map
holds no entry named `name` one is inserted, which may rehash the container: the
iteration order afterwards is the container's choice among the arrangements of
the new entry and the old ones, and `order` is that choice.  (An `order` that is
no such arrangement is not an answer of the container; the new entry is then
put first.) -/
def headers_assign (name value : Str) (order headers : List (Str × Str)) :
    List (Str × Str) :=
  if headers.any (fun h => h.1 = name) then headers_replace name value headers
  else if order.Perm ((name, value) :: headers) then order
  else (name, value) :: headers

/-- `set_header(name, value)`; `order` is the iteration order the container has
after an insertion. -/
def async_http_request_t.set_header (self : async_http_request_t Cb) (name value : Str)
    (order : List (Str × Str)) : async_http_request_t Cb :=
  { self with headers := headers_assign name value order self.headers }

/-- `remove_header(name)`. -/
def async_http_request_t.remove_header (self : async_http_request_t Cb) (name : Str) :
    async_http_request_t Cb :=
  { self with headers := self.headers.filter (fun h => h.1 ≠ name) }

/-- `clear_headers()`. -/
def async_http_request_t.clear_headers (self : async_http_request_t Cb) :
    async_http_request_t Cb :=
  { self with headers := [] }

/-- The digits pushed by `std::to_string`, most significant first, in front of
`acc`; `fuel` bounds the number of digits. -/
def to_string_digits : Nat → Nat → Str → Str
  | 0, _, acc => acc
  | fuel + 1, n, acc =>
    if n < 10 then Fin.ofNat (48 + n) :: acc
    else to_string_digits fuel (n / 10) (Fin.ofNat (48 + n % 10) :: acc)

/-- `std::to_string(std::size_t)`: the decimal representation. -/
def to_string (n : Nat) : Str := to_string_digits (n + 1) n []

/-- The loop `for (const auto& header : headers) request += ...` of `get` and
`post`. -/
def append_headers (request : Str) : List (Str × Str) → Str
  | [] => request
  | header :: headers =>
    append_headers (request ++ (header.1 ++ bytes ": " ++ header.2 ++ bytes "\r\n")) headers

/-- `get(url, callback)`; `connect` is the answer of `socket.connect(host, 80)`.
`callback` is a callable target (never the empty `std::function`). -/
def async_http_request_t.get (self : async_http_request_t Cb) (url : Str) (callback : Cb)
    (connect : Bool) : async_http_request_t Cb × List (Event Cb) :=
  match parse_url url with
  | none => (self, [Event.callback callback (bytes "Invalid URL")])
  | some (host, path) =>
    if !connect then
      (self, [Event.connect host 80, Event.callback callback (bytes "Connection failed")])
    else
      let request := bytes "GET " ++ path ++ bytes " HTTP/1.1\r\n"
        ++ bytes "Host: " ++ host ++ bytes "\r\n"
      let request := append_headers request self.headers
      let request := request ++ bytes "Connection: close\r\n\r\n"
      ({ self with
          request := request
          response := []
          ready_to_receive := false
          callback := some callback },
       [Event.connect host 80])

/-- The `switch (content_type)` of `post`. -/
def content_type_str (content_type : content_type_t) : Str :=
  if content_type = content_type_t.form_urlencoded then bytes "application/x-www-form-urlencoded"
  else if content_type = content_type_t.json then bytes "application/json"
  else if content_type = content_type_t.xml then bytes "application/xml"
  else if content_type = content_type_t.text then bytes "text/plain"
  else bytes "application/octet-stream"

/-- Line 301 of `post`: the body that is sent,
`(content_type == form_urlencoded) ? url_encode(data) : data`. -/
def encoded_data (content_type : content_type_t) (data : Str) : Str :=
  if content_type = content_type_t.form_urlencoded then url_encode data else data

/-- `post(url, callback, content_type, data)`; `connect` is the answer of
`socket.connect(host, 80)`. -/
def async_http_request_t.post (self : async_http_request_t Cb) (url : Str) (callback : Cb)
    (content_type : content_type_t) (data : Str) (connect : Bool) :
    async_http_request_t Cb × List (Event Cb) :=
  match parse_url url with
  | none => (self, [Event.callback callback (bytes "Invalid URL")])
  | some (host, path) =>
    if !connect then
      (self, [Event.connect host 80, Event.callback callback (bytes "Connection failed")])
    else
      let encoded_data := encoded_data content_type data
      let request := bytes "POST " ++ path ++ bytes " HTTP/1.1\r\n"
        ++ bytes "Host: " ++ host ++ bytes "\r\n"
        ++ bytes "Content-Type: " ++ content_type_str content_type ++ bytes "\r\n"
        ++ bytes "Content-Length: " ++ to_string encoded_data.length ++ bytes "\r\n"
      let request := append_headers request self.headers
      let request := request ++ bytes "Connection: close\r\n\r\n"
      let request := request ++ encoded_data
      ({ self with
          request := request
          response := []
          ready_to_receive := false
          callback := some callback },
       [Event.connect host 80])

/-- `tcp_socket_t::receive(data, len)`: `recv` stores at most `len` bytes at the
start of `data`; the call succeeds when `recv` reported neither an error nor 0
bytes.  Returns the result and the contents of `data` afterwards. -/
def tcp_socket_t.receive (recv : Option Str) (data : List Byte) (len : Nat) :
    Bool × List Byte :=
  match recv with
  | none => (false, data)
  | some chunk =>
    let stored := chunk.take len
    (stored.length != 0, stored ++ data.drop stored.length)

/-- The characters `std::string::append(const char*)` reads from the start of a
buffer: those before the first zero byte; `none` when the buffer holds no zero
byte, so that the read leaves it. -/
def c_str (buffer : List Byte) : Option Str :=
  if (0 : Byte) ∈ buffer then some (buffer.takeWhile (fun b => b ≠ 0)) else none

/-- The block `if (system_clock::now() >= packet_timeout) { ... }` of `serve`
followed by the final `return false`; `events` are the operations already issued
and `now` is the clock sample of the comparison. -/
def serve_deadline (self : async_http_request_t Cb) (events : List (Event Cb)) (now : Int) :
    Except Fault (Bool × async_http_request_t Cb × List (Event Cb)) :=
  if now ≥ self.packet_timeout then
    match self.callback with
    | none => .error Fault.bad_function_call
    | some f =>
      .ok (true, self,
        events ++ [Event.callback f (if self.response.isEmpty then bytes "No data" else self.response),
          Event.close])
  else .ok (false, self, events)

/-- `serve()`: the returned `Bool` is its result, with the engine afterwards and
the operations issued. -/
def async_http_request_t.serve (self : async_http_request_t Cb) (io : Poll) :
    Except Fault (Bool × async_http_request_t Cb × List (Event Cb)) :=
  if self.ready_to_receive then
    match tcp_socket_t.receive io.recv self.response_buffer self.response_buffer.length with
    | (true, buffer) =>
      match c_str buffer with
      | none => .error Fault.buffer_overrun
      | some text =>
        serve_deadline
          { self with
              response := self.response ++ text
              response_buffer := List.replicate buffer.length 0
              packet_timeout := io.now1 + 50 }
          [Event.receive self.response_buffer.length] io.now2
    | (false, buffer) =>
      serve_deadline { self with response_buffer := buffer }
        [Event.receive self.response_buffer.length] io.now1
  else if io.send then
    .ok (false, { self with packet_timeout := io.now1 + 5000, ready_to_receive := true },
      [Event.send self.request])
  else .ok (false, self, [Event.send self.request])

/-- The caller's loop `while (!req.serve()) {}` of `example.cpp`, over the
answers `ios` of the environment to the successive calls: it stops after the
first call that returns `true`.  The `Bool` tells whether such a call occurred. -/
def serve_loop (self : async_http_request_t Cb) :
    List Poll → Except Fault (Bool × async_http_request_t Cb × List (Event Cb))
  | [] => .ok (false, self, [])
  | io :: ios =>
    match self.serve io with
    | .error e => .error e
    | .ok (true, self, events) => .ok (true, self, events)
    | .ok (false, self, events) =>
      match serve_loop self ios with
      | .error e => .error e
      | .ok (complete, self, more) => .ok (complete, self, events ++ more)

/-! ## Specification-side vocabulary for `url_encode` -/

/-- The unreserved set as the specification words it: an ASCII letter, an ASCII
digit, or one of `-`, `_`, `.`, `~`. -/
def isUnreserved (b : Byte) : Bool :=
  (97 ≤ b.val && b.val ≤ 122) || (65 ≤ b.val && b.val ≤ 90) || (48 ≤ b.val && b.val ≤ 57)
    || b.val = 45 || b.val = 95 || b.val = 46 || b.val = 126

/-- The value of an uppercase hexadecimal digit character (`none` for any other
character, lowercase `a`-`f` included). -/
def hexValue (d : Byte) : Option Nat :=
  if 48 ≤ d.val ∧ d.val ≤ 57 then some (d.val - 48)
  else if 65 ≤ d.val ∧ d.val ≤ 70 then some (d.val - 55)
  else none

/-- The uppercase hexadecimal digit character of a nibble `n < 16`. -/
def upperHexDigit (n : Nat) : Byte :=
  if n < 10 then Fin.ofNat (48 + n) else Fin.ofNat (55 + n)

/-- What the specification says one byte is encoded to: itself when unreserved,
otherwise `%` followed by the uppercase hexadecimal digits of its high and low
nibble. -/
def encodeByte (b : Byte) : Str :=
  if isUnreserved b then [b] else [37, upperHexDigit (b.val / 16), upperHexDigit (b.val % 16)]

/-! ## Specification-side vocabulary for the serialized request -/

/-- The line one entry of the header set contributes: `"{name}: {value}\r\n"`. -/
def headerLine (h : Str × Str) : Str := h.1 ++ bytes ": " ++ h.2 ++ bytes "\r\n"

/-- The final piece of every header block. -/
def terminator : Str := bytes "Connection: close\r\n\r\n"

/-- The request the specification prescribes for `GET`: request line, `Host`
line, one line per entry of the header set in order, terminator. -/
def specGetRequest (host path : Str) (headers : List (Str × Str)) : Str :=
  (bytes "GET " ++ path ++ bytes " HTTP/1.1\r\n")
    ++ (bytes "Host: " ++ host ++ bytes "\r\n")
    ++ (headers.map headerLine).flatten
    ++ terminator

/-- The request the specification prescribes for `POST`, for a MIME string
`mime`, an announced length `len` and the body bytes `body` that are sent. -/
def specPostRequest (host path : Str) (headers : List (Str × Str)) (mime len body : Str) : Str :=
  (bytes "POST " ++ path ++ bytes " HTTP/1.1\r\n")
    ++ (bytes "Host: " ++ host ++ bytes "\r\n")
    ++ (bytes "Content-Type: " ++ mime ++ bytes "\r\n")
    ++ (bytes "Content-Length: " ++ len ++ bytes "\r\n")
    ++ (headers.map headerLine).flatten
    ++ terminator
    ++ body

/-- The lines the specification prescribes for the header block of a `GET`. -/
def getLines (host path : Str) (headers : List (Str × Str)) : List Str :=
  [bytes "GET " ++ path ++ bytes " HTTP/1.1", bytes "Host: " ++ host]
    ++ headers.map (fun h => h.1 ++ bytes ": " ++ h.2)
    ++ [bytes "Connection: close"]

/-- The lines the specification prescribes for the header block of a `POST`. -/
def postLines (host path : Str) (headers : List (Str × Str)) (mime len : Str) : List Str :=
  [bytes "POST " ++ path ++ bytes " HTTP/1.1", bytes "Host: " ++ host,
    bytes "Content-Type: " ++ mime, bytes "Content-Length: " ++ len]
    ++ headers.map (fun h => h.1 ++ bytes ": " ++ h.2)
    ++ [bytes "Connection: close"]

/-- One step of reading a decimal numeral from the left. -/
def decimalStep (acc : Option Nat) (d : Byte) : Option Nat :=
  match acc with
  | none => none
  | some a => if 48 ≤ d.val ∧ d.val ≤ 57 then some (10 * a + (d.val - 48)) else none

/-- The number a non-empty string of ASCII decimal digits denotes. -/
def decimalValue (s : Str) : Option Nat :=
  if s = [] then none else s.foldl decimalStep (some 0)

/-! ## Specification-side vocabulary for runs of the engine -/

/-- The callback invocations among a list of operations, in order. -/
def callbacks : List (Event Cb) → List (Cb × Str)
  | [] => []
  | Event.callback f response :: events => (f, response) :: callbacks events
  | _ :: events => callbacks events

/-- The receive attempt of this call fails: `recv` reports an error (or would
block), or it reports 0 bytes. -/
def Poll.receive_fails (p : Poll) : Bool :=
  match p.recv with
  | none => true
  | some [] => true
  | some (_ :: _) => false

/-- All bytes the transport delivered during the calls `polls`, in arrival order. -/
def delivered : List Poll → Str
  | [] => []
  | p :: polls => (match p.recv with | some chunk => chunk | none => []) ++ delivered polls

/-- The clock sample taken right after the last successful receive among the
calls `polls` (`none` when no receive succeeded). -/
def last_delivery : List Poll → Option Int
  | [] => none
  | p :: polls =>
    match last_delivery polls with
    | some t => some t
    | none => if p.receive_fails then none else some p.now1

/-- Whether a call (or a loop of calls) returned `true`, "complete". -/
def completes {σ ε : Type} (r : Except Fault (Bool × σ × ε)) : Bool :=
  match r with
  | .ok (true, _) => true
  | _ => false

/-- The text the finalizing call passes to the callback. -/
def final_text (self : async_http_request_t Cb) : Str :=
  if self.response.isEmpty then bytes "No data" else self.response

/-- An engine armed by `get`, used in the concrete examples: a fresh engine
after `get("http://www.google.com", f)` with callback `f = 7`, connect
succeeding. -/
def example_armed : async_http_request_t Nat :=
  ((async_http_request_t.init : async_http_request_t Nat).get
    (bytes "http://www.google.com") 7 true).1

/-- The engine `example_armed` after a `serve` call whose send succeeded at clock
time `t0`. -/
def example_sent (t0 : Int) : async_http_request_t Nat :=
  { example_armed with packet_timeout := t0 + 5000, ready_to_receive := true }

/-- The engine `example_armed` in the fully-sent state, with accumulated text
`response` and deadline `deadline`. -/
def example_receiving (response : Str) (deadline : Int) : async_http_request_t Nat :=
  { example_armed with
      response := response, packet_timeout := deadline, ready_to_receive := true }

/-- The engine of the example program after its two `set_header` calls, with
the container iterating `User-Agent` before `Authorization`. -/
def example_headers : async_http_request_t Nat :=
  (async_http_request_t.init.set_header (bytes "Authorization") (bytes "Bearer 123")
      [(bytes "Authorization", bytes "Bearer 123")]).set_header
    (bytes "User-Agent") (bytes "AsyncHttp/1.0")
    [(bytes "User-Agent", bytes "AsyncHttp/1.0"), (bytes "Authorization", bytes "Bearer 123")]

/-- A fresh engine after a `serve` call whose send succeeded at clock time 0: no
callback was ever stored. -/
def example_no_callback : async_http_request_t Nat :=
  { (async_http_request_t.init : async_http_request_t Nat) with
      packet_timeout := 5000, ready_to_receive := true }

/-- The value of a hexadecimal digit character, upper or lower case. -/
def hexDigitValue (d : Byte) : Option Nat :=
  match hexValue d with
  | some v => some v
  | none => if 97 ≤ d.val ∧ d.val ≤ 102 then some (d.val - 87) else none

/-- The standard percent-decoder: every `%XY` with hexadecimal digits `X` and `Y`
is replaced by the byte of value `16 * X + Y`, every other character is copied. -/
def percent_decode : Str → Str
  | [] => []
  | [a] => [a]
  | [a, x] => [a, x]
  | a :: x :: y :: rest =>
    match (if a = 37 then hexDigitValue x else none), hexDigitValue y with
    | some h, some l => Fin.ofNat (16 * h + l) :: percent_decode rest
    | _, _ => a :: percent_decode (x :: y :: rest)

/-! ## Theorems -/

set_option maxRecDepth 1000000 in
/-- For every byte, the source's membership test `isalnum(c) || safe_chars.find(c) != npos`
is the unreserved set, and `"%" + to_hex(c)` is the three-character escape. -/
theorem url_encode_step (c : Byte) :
    (if isalnum c || (find_char_from safe_chars c).isSome then [c] else bytes "%" ++ to_hex c)
      = encodeByte c := by
  revert c
  decide

set_option maxRecDepth 1000000 in
theorem hexValue_upperHexDigit (b : Byte) :
    hexValue (upperHexDigit (b.val / 16)) = some (b.val / 16) ∧
    hexValue (upperHexDigit (b.val % 16)) = some (b.val % 16) := by
  revert b
  decide

theorem url_encode_loop_eq (acc data : Str) :
    url_encode_loop acc data = acc ++ data.flatMap encodeByte := by
  induction data generalizing acc with
  | nil => simp [url_encode_loop]
  | cons c data ih =>
    have hc := url_encode_step c
    by_cases h : (isalnum c || (find_char_from safe_chars c).isSome) = true
    · rw [if_pos h] at hc
      rw [url_encode_loop, if_pos h, ih, List.flatMap_cons, ← hc]
      simp
    · rw [if_neg h] at hc
      rw [url_encode_loop, if_neg h, ih, List.flatMap_cons, ← hc]
      simp

/-- C8: `url_encode s` is the concatenation, over the bytes of `s` in order, of
the byte itself when it is unreserved and of `%HL` otherwise, where `H` and `L`
are uppercase hexadecimal digits with `16 * value H + value L` equal to the
byte, for all 256 byte values. -/
theorem url_encode_spec (s : Str) :
    url_encode s = s.flatMap encodeByte ∧
    ∀ b : Byte,
      (isUnreserved b = true → encodeByte b = [b]) ∧
      (isUnreserved b = false →
        ∃ H L : Byte, encodeByte b = [37, H, L] ∧
          hexValue H = some (b.val / 16) ∧ hexValue L = some (b.val % 16) ∧
          16 * (b.val / 16) + b.val % 16 = b.val) := by
  refine ⟨by simp [url_encode, url_encode_loop_eq], fun b => ⟨fun h => by simp [encodeByte, h], fun h => ?_⟩⟩
  refine ⟨upperHexDigit (b.val / 16), upperHexDigit (b.val % 16), by simp [encodeByte, h], ?_, ?_, by omega⟩
  · exact (hexValue_upperHexDigit b).1
  · exact (hexValue_upperHexDigit b).2

/-! ### `find`, `find_char` and `parse_url` -/

theorem find_eq_none_iff (s pat : Str) : find s pat = none ↔ ¬ pat <:+: s := by
  induction s with
  | nil =>
    cases pat with
    | nil => simp [find, List.isPrefixOf]
    | cons a l => simp [find, List.isPrefixOf]
  | cons c t ih =>
    unfold find
    by_cases hp : pat.isPrefixOf (c :: t) = true
    · have hp2 : pat <+: c :: t := List.isPrefixOf_iff_prefix.mp hp
      simp [hp, hp2.isInfix]
    · have hp2 : ¬ pat <+: c :: t := fun h => hp (List.isPrefixOf_iff_prefix.mpr h)
      simp only [hp, Bool.false_eq_true, if_false, Option.map_eq_none', ih, List.infix_cons_iff,
        hp2, false_or]

theorem find_first (pat pre rest : Str)
    (hfirst : ∀ pre2 rest2 : Str, pre ++ pat ++ rest = pre2 ++ pat ++ rest2 →
      pre.length ≤ pre2.length) :
    find (pre ++ pat ++ rest) pat = some pre.length := by
  induction pre with
  | nil =>
    have hp : pat.isPrefixOf (pat ++ rest) = true :=
      List.isPrefixOf_iff_prefix.mpr (List.prefix_append _ _)
    cases hs : pat ++ rest with
    | nil =>
      simp only [List.nil_append, hs, find, List.length_nil]
      rw [hs] at hp
      simp [hp]
    | cons c t =>
      simp only [List.nil_append, hs, find, List.length_nil]
      rw [hs] at hp
      simp [hp]
  | cons a pre ih =>
    have hnp : ¬ pat.isPrefixOf (a :: (pre ++ pat ++ rest)) = true := by
      intro hp
      obtain ⟨r, hr⟩ := List.isPrefixOf_iff_prefix.mp hp
      have := hfirst [] r (by simpa using hr.symm)
      simp at this
    have ih2 := ih (fun pre2 rest2 h => by
      have := hfirst (a :: pre2) rest2 (by simp [h])
      simpa using this)
    show find (a :: (pre ++ pat ++ rest)) pat = _
    rw [find, if_neg hnp, ih2]
    rfl

theorem find_char_from_eq_none (s : Str) (c : Byte) (h : c ∉ s) : find_char_from s c = none := by
  induction s with
  | nil => rfl
  | cons a t ih =>
    simp only [List.mem_cons, not_or] at h
    simp [find_char_from, ih h.2, Ne.symm h.1]

theorem parse_url_eq_none_iff (url : Str) : parse_url url = none ↔ ¬ bytes "://" <:+: url := by
  rw [← find_eq_none_iff]
  unfold parse_url
  cases find url (bytes "://") with
  | none => simp
  | some p =>
    simp only [reduceCtorEq, iff_false]
    cases find_char url 47 (p + 3) <;> simp

/-- C10: when `"://"` occurs in the URL (first at the end of `pre`) and no `/`
follows that occurrence, `parse_url` succeeds, the host is everything after the
delimiter and the path is exactly `"/"`. -/
theorem parse_url_no_path (pre rest : Str)
    (hfirst : ∀ pre2 rest2 : Str, pre ++ bytes "://" ++ rest = pre2 ++ bytes "://" ++ rest2 →
      pre.length ≤ pre2.length)
    (hno : (47 : Byte) ∉ rest) :
    parse_url (pre ++ bytes "://" ++ rest) = some (rest, bytes "/") := by
  have hdrop : (pre ++ bytes "://" ++ rest).drop (pre.length + 3) = rest := by
    have : (pre ++ bytes "://").length = pre.length + 3 := by simp [bytes]
    rw [← this, List.drop_left]
  simp only [parse_url, find_first _ pre rest hfirst, find_char, substr, hdrop,
    find_char_from_eq_none rest 47 hno, Option.map_none']

/-- Witness for C10: `http://www.google.com` decomposes into host
`www.google.com` and path `/`. -/
theorem parse_url_no_path_witness :
    parse_url (bytes "http" ++ bytes "://" ++ bytes "www.google.com")
      = some (bytes "www.google.com", bytes "/") :=
  parse_url_no_path (bytes "http") (bytes "www.google.com")
    (by
      intro pre2 rest2 h
      by_contra hlt
      have hlen : pre2.length < 4 := by simpa [bytes] using hlt
      have h2 := congrArg (fun l => l.drop pre2.length |>.take 3) h
      simp only [List.append_assoc, List.drop_left, List.take_left] at h2
      have h3 : (bytes "://").length = 3 := by decide
      rw [List.take_append_of_le_length (by omega)] at h2
      simp only [← h3, List.take_length] at h2
      interval_cases hl : pre2.length <;> revert h2 <;> decide)
    (by decide)

/-! ### The engine: invalid URLs -/

/-- C1: for a URL that does not contain `"://"`, in every engine state, `get` and
`post` issue exactly one operation, the invocation of the callback with
`"Invalid URL"` (no connect, send, receive or close), and return the engine
unchanged. -/
theorem get_post_invalid_url (self : async_http_request_t Cb) (url : Str) (cb : Cb)
    (ct : content_type_t) (data : Str) (connect : Bool)
    (h : ¬ bytes "://" <:+: url) :
    self.get url cb connect = (self, [Event.callback cb (bytes "Invalid URL")]) ∧
    self.post url cb ct data connect = (self, [Event.callback cb (bytes "Invalid URL")]) := by
  have hp := (parse_url_eq_none_iff url).mpr h
  simp [async_http_request_t.get, async_http_request_t.post, hp]

/-- Witness for C1: `www.google.com` has no `"://"`. -/
theorem get_post_invalid_url_witness :
    ¬ bytes "://" <:+: bytes "www.google.com" ∧
    ((async_http_request_t.init : async_http_request_t Nat).get (bytes "www.google.com") 7 true
        = (async_http_request_t.init, [Event.callback 7 (bytes "Invalid URL")]) ∧
     (async_http_request_t.init : async_http_request_t Nat).post (bytes "www.google.com") 7
        content_type_t.json (bytes "x") true
        = (async_http_request_t.init, [Event.callback 7 (bytes "Invalid URL")])) :=
  ⟨by decide, get_post_invalid_url _ _ _ _ _ _ (by decide)⟩

/-! ### Serialization -/

theorem append_headers_eq (request : Str) (headers : List (Str × Str)) :
    append_headers request headers = request ++ (headers.map headerLine).flatten := by
  induction headers generalizing request with
  | nil => simp [append_headers]
  | cons h hs ih => simp [append_headers, ih, headerLine]

theorem get_request_eq (self : async_http_request_t Cb) (url : Str) (cb : Cb) (host path : Str)
    (hp : parse_url url = some (host, path)) :
    (self.get url cb true).1.request = specGetRequest host path self.headers := by
  simp [async_http_request_t.get, hp, append_headers_eq, specGetRequest, terminator]

theorem post_request_eq (self : async_http_request_t Cb) (url : Str) (cb : Cb)
    (ct : content_type_t) (data host path : Str) (hp : parse_url url = some (host, path)) :
    (self.post url cb ct data true).1.request
      = specPostRequest host path self.headers (content_type_str ct)
          (to_string (encoded_data ct data).length) (encoded_data ct data) := by
  simp [async_http_request_t.post, hp, append_headers_eq, specPostRequest, terminator]

theorem decimalStep_digits (fuel n : Nat) (acc : Str) (h : n < fuel) :
    (to_string_digits fuel n acc).foldl decimalStep (some 0)
      = acc.foldl decimalStep (some n) := by
  induction fuel generalizing n acc with
  | zero => omega
  | succ fuel ih =>
    unfold to_string_digits
    by_cases h10 : n < 10
    · have hv : (Fin.ofNat (48 + n) : Byte).val = 48 + n := by
        show (48 + n) % 256 = 48 + n
        omega
      simp only [h10, if_true, List.foldl_cons, decimalStep, hv]
      have : 48 ≤ 48 + n ∧ 48 + n ≤ 57 := by omega
      simp [this]
    · have hv : (Fin.ofNat (48 + n % 10) : Byte).val = 48 + n % 10 := by
        show (48 + n % 10) % 256 = 48 + n % 10
        omega
      simp only [h10, if_false]
      rw [ih (n / 10) _ (by omega)]
      simp only [List.foldl_cons, decimalStep, hv]
      have : 48 ≤ 48 + n % 10 ∧ 48 + n % 10 ≤ 57 := by omega
      simp only [this, and_self, if_true]
      congr 2
      omega

theorem to_string_digits_ne_nil (fuel n : Nat) (acc : Str) (h : 0 < fuel ∨ acc ≠ []) :
    to_string_digits fuel n acc ≠ [] := by
  induction fuel generalizing n acc with
  | zero =>
    rcases h with h | h
    · omega
    · simpa [to_string_digits] using h
  | succ fuel ih =>
    unfold to_string_digits
    by_cases h10 : n < 10
    · simp [h10]
    · simp only [h10, if_false]
      exact ih _ _ (Or.inr (by simp))

/-- `std::to_string` writes the decimal numeral of its argument. -/
theorem decimalValue_to_string (n : Nat) : decimalValue (to_string n) = some n := by
  unfold decimalValue to_string
  rw [if_neg (to_string_digits_ne_nil _ _ _ (Or.inl (by omega))),
    decimalStep_digits (n + 1) n [] (by omega)]
  rfl

/-- C6: for a URL that decomposes into `(host, path)`, the request armed by `get`
is request line, `Host` line, one line per header entry in order, terminator, so
it ends with the terminator; the request armed by `post` has the same shape with
method `POST`, the `Content-Type` and `Content-Length` lines after `Host`, and
the terminator immediately followed by the body that is sent and nothing else. -/
theorem request_shape (self : async_http_request_t Cb) (url : Str) (cb : Cb) (host path : Str)
    (hp : parse_url url = some (host, path)) :
    (self.get url cb true).1.request
        = bytes "GET " ++ path ++ bytes " HTTP/1.1\r\n"
          ++ (bytes "Host: " ++ host ++ bytes "\r\n")
          ++ (self.headers.map (fun h => h.1 ++ bytes ": " ++ h.2 ++ bytes "\r\n")).flatten
          ++ bytes "Connection: close\r\n\r\n" ∧
    bytes "Connection: close\r\n\r\n" <:+ (self.get url cb true).1.request ∧
    ∀ (ct : content_type_t) (data : Str),
      (self.post url cb ct data true).1.request
        = bytes "POST " ++ path ++ bytes " HTTP/1.1\r\n"
          ++ (bytes "Host: " ++ host ++ bytes "\r\n")
          ++ (bytes "Content-Type: " ++ content_type_str ct ++ bytes "\r\n")
          ++ (bytes "Content-Length: " ++ to_string (encoded_data ct data).length ++ bytes "\r\n")
          ++ (self.headers.map (fun h => h.1 ++ bytes ": " ++ h.2 ++ bytes "\r\n")).flatten
          ++ bytes "Connection: close\r\n\r\n"
          ++ encoded_data ct data := by
  have hl : (fun h : Str × Str => h.1 ++ bytes ": " ++ h.2 ++ bytes "\r\n") = headerLine := rfl
  have hg := get_request_eq self url cb host path hp
  refine ⟨?_, ?_, fun ct data => ?_⟩
  · rw [hg, hl]
    rfl
  · rw [hg]
    exact ⟨_, rfl⟩
  · rw [post_request_eq self url cb ct data host path hp, hl]
    rfl

/-- Witness for C6: the URL of the example program, `http://postman-echo.com/post`. -/
theorem request_shape_witness :
    parse_url (bytes "http://postman-echo.com/post")
      = some (bytes "postman-echo.com", bytes "/post") ∧
    ((async_http_request_t.init : async_http_request_t Nat).get
        (bytes "http://postman-echo.com/post") 7 true).1.request
      = bytes "GET /post HTTP/1.1\r\nHost: postman-echo.com\r\nConnection: close\r\n\r\n" :=
  ⟨by decide,
   ((request_shape (async_http_request_t.init : async_http_request_t Nat)
      (bytes "http://postman-echo.com/post") 7 (bytes "postman-echo.com") (bytes "/post")
      (by decide)).1).trans (by decide)⟩

/-- C7: a `post` with content type `form_urlencoded` sends the percent-encoded
body; its `Content-Length` line carries the decimal numeral of the length of the
encoded body, which is the number of bytes that follow the terminator. -/
theorem post_form_urlencoded (self : async_http_request_t Cb) (url : Str) (cb : Cb)
    (data host path : Str) (hp : parse_url url = some (host, path)) :
    ∃ len : Str,
      (self.post url cb content_type_t.form_urlencoded data true).1.request
        = bytes "POST " ++ path ++ bytes " HTTP/1.1\r\n"
          ++ (bytes "Host: " ++ host ++ bytes "\r\n")
          ++ bytes "Content-Type: application/x-www-form-urlencoded\r\n"
          ++ (bytes "Content-Length: " ++ len ++ bytes "\r\n")
          ++ (self.headers.map headerLine).flatten
          ++ bytes "Connection: close\r\n\r\n"
          ++ url_encode data ∧
      decimalValue len = some (url_encode data).length := by
  refine ⟨to_string (url_encode data).length, ?_, decimalValue_to_string _⟩
  rw [post_request_eq self url cb _ data host path hp]
  simp [specPostRequest, terminator, encoded_data, content_type_str, bytes]

/-- Witness for C7: body `a b` is sent as `a%20b` with `Content-Length: 5`. -/
theorem post_form_urlencoded_witness :
    parse_url (bytes "http://h/p") = some (bytes "h", bytes "/p") ∧
    url_encode (bytes "a b") = bytes "a%20b" ∧
    decimalValue (bytes "5") = some (url_encode (bytes "a b")).length ∧
    (bytes "a b").length = 3 ∧
    ((async_http_request_t.init : async_http_request_t Nat).post (bytes "http://h/p") 7
        content_type_t.form_urlencoded (bytes "a b") true).1.request
      = bytes ("POST /p HTTP/1.1\r\nHost: h\r\n"
          ++ "Content-Type: application/x-www-form-urlencoded\r\n"
          ++ "Content-Length: 5\r\nConnection: close\r\n\r\na%20b") ∧
    ∃ len : Str,
      ((async_http_request_t.init : async_http_request_t Nat).post (bytes "http://h/p") 7
          content_type_t.form_urlencoded (bytes "a b") true).1.request
        = bytes "POST " ++ bytes "/p" ++ bytes " HTTP/1.1\r\n"
          ++ (bytes "Host: " ++ bytes "h" ++ bytes "\r\n")
          ++ bytes "Content-Type: application/x-www-form-urlencoded\r\n"
          ++ (bytes "Content-Length: " ++ len ++ bytes "\r\n")
          ++ ((async_http_request_t.init : async_http_request_t Nat).headers.map headerLine).flatten
          ++ bytes "Connection: close\r\n\r\n"
          ++ url_encode (bytes "a b") ∧
        decimalValue len = some (url_encode (bytes "a b")).length :=
  ⟨by decide, by decide, by decide, by decide, by decide,
   post_form_urlencoded (async_http_request_t.init : async_http_request_t Nat) (bytes "http://h/p")
     7 (bytes "a b") (bytes "h") (bytes "/p") (by decide)⟩

/-- C9: for a content type other than `form_urlencoded`, `post` sends the body
unmodified and announces the raw body length; the `Content-Type` value is
the MIME string of the content type, `application/octet-stream` for every value
other than the four enumerators. -/
theorem post_other_content_type (self : async_http_request_t Cb) (url : Str) (cb : Cb)
    (ct : content_type_t) (data host path : Str) (hp : parse_url url = some (host, path))
    (hct : ct ≠ content_type_t.form_urlencoded) :
    (∃ len : Str,
      (self.post url cb ct data true).1.request
        = bytes "POST " ++ path ++ bytes " HTTP/1.1\r\n"
          ++ (bytes "Host: " ++ host ++ bytes "\r\n")
          ++ (bytes "Content-Type: " ++ content_type_str ct ++ bytes "\r\n")
          ++ (bytes "Content-Length: " ++ len ++ bytes "\r\n")
          ++ (self.headers.map headerLine).flatten
          ++ bytes "Connection: close\r\n\r\n"
          ++ data ∧
      decimalValue len = some data.length) ∧
    content_type_str content_type_t.form_urlencoded = bytes "application/x-www-form-urlencoded" ∧
    content_type_str content_type_t.json = bytes "application/json" ∧
    content_type_str content_type_t.xml = bytes "application/xml" ∧
    content_type_str content_type_t.text = bytes "text/plain" ∧
    (ct ≠ content_type_t.json → ct ≠ content_type_t.xml → ct ≠ content_type_t.text →
      content_type_str ct = bytes "application/octet-stream") := by
  refine ⟨⟨to_string data.length, ?_, decimalValue_to_string _⟩, rfl, rfl, rfl, rfl, ?_⟩
  · rw [post_request_eq self url cb _ data host path hp]
    simp [specPostRequest, terminator, encoded_data, hct]
  · intro h1 h2 h3
    simp [content_type_str, hct, h1, h2, h3]

/-- Witness for C9: a JSON body sent to the URL of the example program. -/
theorem post_other_content_type_witness :
    parse_url (bytes "http://postman-echo.com/post")
      = some (bytes "postman-echo.com", bytes "/post") ∧
    content_type_t.json ≠ content_type_t.form_urlencoded ∧
    ∃ len : Str,
      ((async_http_request_t.init : async_http_request_t Nat).post
          (bytes "http://postman-echo.com/post") 7 content_type_t.json (bytes "[1, 2]") true).1.request
        = bytes "POST " ++ bytes "/post" ++ bytes " HTTP/1.1\r\n"
          ++ (bytes "Host: " ++ bytes "postman-echo.com" ++ bytes "\r\n")
          ++ (bytes "Content-Type: " ++ content_type_str content_type_t.json ++ bytes "\r\n")
          ++ (bytes "Content-Length: " ++ len ++ bytes "\r\n")
          ++ ((async_http_request_t.init : async_http_request_t Nat).headers.map headerLine).flatten
          ++ bytes "Connection: close\r\n\r\n"
          ++ bytes "[1, 2]" ∧
      decimalValue len = some (bytes "[1, 2]").length :=
  ⟨by decide, by decide,
   (post_other_content_type (async_http_request_t.init : async_http_request_t Nat)
      (bytes "http://postman-echo.com/post") 7 content_type_t.json (bytes "[1, 2]")
      (bytes "postman-echo.com") (bytes "/post") (by decide) (by decide)).1⟩

/-! ### The engine: polling -/

theorem receive_of_fails (p : Poll) (data : List Byte) (len : Nat)
    (h : p.receive_fails = true) : tcp_socket_t.receive p.recv data len = (false, data) := by
  unfold Poll.receive_fails at h
  cases hr : p.recv with
  | none => rfl
  | some c =>
    cases c with
    | nil => simp [tcp_socket_t.receive]
    | cons b c => simp [hr] at h

/-- A `serve` call in the fully-sent state whose receive fails only compares the
clock with the deadline. -/
theorem serve_receive_fails (self : async_http_request_t Cb) (p : Poll)
    (hready : self.ready_to_receive = true) (h : p.receive_fails = true) :
    self.serve p = serve_deadline self [Event.receive self.response_buffer.length] p.now1 := by
  unfold async_http_request_t.serve
  rw [if_pos hready, receive_of_fails p _ _ h]

theorem serve_loop_cons_complete (self next : async_http_request_t Cb) (p : Poll)
    (ps : List Poll) (events : List (Event Cb)) (h : self.serve p = .ok (true, next, events)) :
    serve_loop self (p :: ps) = .ok (true, next, events) := by
  rw [serve_loop, h]

theorem serve_loop_cons_continue (self next last : async_http_request_t Cb) (p : Poll)
    (ps : List Poll) (events more : List (Event Cb)) (c : Bool)
    (h : self.serve p = .ok (false, next, events))
    (hrest : serve_loop next ps = .ok (c, last, more)) :
    serve_loop self (p :: ps) = .ok (c, last, events ++ more) := by
  rw [serve_loop, h]
  simp only [hrest]

/-- C4: let the send of an armed request succeed at clock time `t0` and let every
receive fail.  Then every `serve` call made while the clock is before
`t0 + 5000` returns not-complete and issues nothing but its receive attempt, and
the first call made at or past `t0 + 5000` invokes the callback with `"No data"`,
closes the transport and returns complete. -/
theorem no_data_timeout (self : async_http_request_t Cb) (cb : Cb) (t0 : Int)
    (p0 : Poll) (waits : List Poll) (fin : Poll)
    (hflag : self.ready_to_receive = false) (hresp : self.response = [])
    (hcb : self.callback = some cb)
    (hsend : p0.send = true ∧ p0.now1 = t0)
    (hwaits : ∀ p ∈ waits, p.receive_fails = true ∧ p.now1 < t0 + 5000)
    (hfin : fin.receive_fails = true ∧ t0 + 5000 ≤ fin.now1) :
    let sent : async_http_request_t Cb :=
      { self with packet_timeout := t0 + 5000, ready_to_receive := true }
    self.serve p0 = .ok (false, sent, [Event.send self.request]) ∧
    (∀ p ∈ waits,
      sent.serve p = .ok (false, sent, [Event.receive self.response_buffer.length])) ∧
    sent.serve fin = .ok (true, sent,
      [Event.receive self.response_buffer.length, Event.callback cb (bytes "No data"),
        Event.close]) ∧
    serve_loop self (p0 :: (waits ++ [fin])) = .ok (true, sent,
      Event.send self.request
        :: (waits.map (fun _ => Event.receive self.response_buffer.length)
          ++ [Event.receive self.response_buffer.length, Event.callback cb (bytes "No data"),
            Event.close])) := by
  intro sent
  refine ⟨?_, ?_, ?_, ?_⟩
  · simp [async_http_request_t.serve, hflag, hsend.1, hsend.2]
  · intro p hp
    rw [serve_receive_fails _ p rfl (hwaits p hp).1]
    have := (hwaits p hp).2
    simp [serve_deadline, this]
  · rw [serve_receive_fails _ fin rfl hfin.1]
    simp [serve_deadline, hfin.2, hcb, hresp]
  · have hstep : self.serve p0
        = .ok (false, { self with packet_timeout := t0 + 5000, ready_to_receive := true },
            [Event.send self.request]) := by
      simp [async_http_request_t.serve, hflag, hsend.1, hsend.2]
    have hloop : ∀ ws : List Poll, (∀ p ∈ ws, p.receive_fails = true ∧ p.now1 < t0 + 5000) →
        serve_loop { self with packet_timeout := t0 + 5000, ready_to_receive := true }
            (ws ++ [fin])
          = .ok (true, { self with packet_timeout := t0 + 5000, ready_to_receive := true },
              ws.map (fun _ => Event.receive self.response_buffer.length)
                ++ [Event.receive self.response_buffer.length,
                  Event.callback cb (bytes "No data"), Event.close]) := by
      intro ws
      induction ws with
      | nil =>
        intro _
        refine serve_loop_cons_complete _ _ fin [] _ ?_
        rw [serve_receive_fails _ fin rfl hfin.1]
        simp [serve_deadline, hfin.2, hcb, hresp]
      | cons w ws ih =>
        intro hws
        have hw := hws w (List.mem_cons_self _ _)
        refine serve_loop_cons_continue _ _ _ w (ws ++ [fin]) [_] _ true ?_
          (ih (fun p hp => hws p (List.mem_cons_of_mem _ hp)))
        rw [serve_receive_fails _ w rfl hw.1]
        simp [serve_deadline, hw.2]
    exact serve_loop_cons_continue _ _ _ p0 _ [_] _ true hstep (hloop waits hwaits)

theorem example_armed_buffer : example_armed.response_buffer = List.replicate 4096 0 := rfl

theorem example_armed_buffer_length : example_armed.response_buffer.length = 4096 := by
  rw [example_armed_buffer, List.length_replicate]

/-- Witness for C4: the send succeeds at clock time 1000, two polls at 2000 and
5999 receive nothing, the poll at 6000 finalizes with `"No data"`. -/
theorem no_data_timeout_witness :
    (example_armed.ready_to_receive = false ∧ example_armed.response = [] ∧
      example_armed.callback = some 7) ∧
    serve_loop example_armed
        [⟨true, none, 1000, 1000⟩, ⟨false, none, 2000, 2000⟩, ⟨false, some [], 5999, 5999⟩,
          ⟨false, none, 6000, 6000⟩]
      = .ok (true, example_sent 1000,
          [Event.send example_armed.request, Event.receive 4096, Event.receive 4096,
            Event.receive 4096, Event.callback 7 (bytes "No data"), Event.close]) :=
  ⟨by decide, by
    have h := (no_data_timeout example_armed 7 1000 ⟨true, none, 1000, 1000⟩
      [⟨false, none, 2000, 2000⟩, ⟨false, some [], 5999, 5999⟩] ⟨false, none, 6000, 6000⟩
      (by decide) (by decide) (by decide) (by decide) (by decide) (by decide)).2.2.2
    rw [example_armed_buffer_length] at h
    exact h⟩

/-! ### The engine: receiving -/

theorem takeWhile_append_zeros (c : Str) (k : Nat) (hk : 0 < k) :
    (c ++ List.replicate k (0 : Byte)).takeWhile (fun b => b ≠ 0)
      = c.takeWhile (fun b => b ≠ 0) := by
  induction c with
  | nil =>
    obtain ⟨k, rfl⟩ : ∃ j, k = j + 1 := ⟨k - 1, by omega⟩
    simp [List.replicate_succ]
  | cons a c ih =>
    by_cases ha : a = 0
    · simp [List.takeWhile_cons, ha]
    · have hd : decide (a ≠ 0) = true := by simpa using ha
      simp only [List.cons_append, List.takeWhile_cons, hd, ih, if_true]

/-- The C-string read after a chunk shorter than the zero-filled buffer was
stored at its start: the chunk up to its first zero byte. -/
theorem c_str_chunk (c : Str) (n : Nat) (h : c.length < n) :
    c_str (c ++ (List.replicate n (0 : Byte)).drop c.length)
      = some (c.takeWhile (fun b => b ≠ 0)) := by
  have hk : 0 < n - c.length := by omega
  rw [List.drop_replicate]
  unfold c_str
  rw [if_pos (by
    rw [List.mem_append]
    exact Or.inr (List.mem_replicate.mpr ⟨by omega, rfl⟩)), takeWhile_append_zeros c _ hk]

theorem takeWhile_of_no_zero (c : Str) (h : (0 : Byte) ∉ c) :
    c.takeWhile (fun b => b ≠ 0) = c := by
  induction c with
  | nil => rfl
  | cons a c ih =>
    simp only [List.mem_cons, not_or] at h
    have hd : decide (a ≠ 0) = true := by simpa using Ne.symm h.1
    simp only [List.takeWhile_cons, hd, ih h.2, if_true]

/-- A `serve` call in the fully-sent state that receives a non-empty chunk of at
most 4095 bytes into the zero-filled 4096-byte buffer: the chunk up to its first
zero byte is appended, the deadline becomes `now1 + 50`, and the clock is then
compared with it. -/
theorem serve_receive_chunk (self : async_http_request_t Cb) (p : Poll) (b : Byte) (c : Str)
    (hready : self.ready_to_receive = true)
    (hbuf : self.response_buffer = List.replicate 4096 0)
    (hrecv : p.recv = some (b :: c)) (hlen : (b :: c).length ≤ 4095) :
    self.serve p
      = serve_deadline
          { self with
              response := self.response ++ (b :: c).takeWhile (fun x => x ≠ 0)
              packet_timeout := p.now1 + 50 }
          [Event.receive 4096] p.now2 := by
  obtain ⟨pt, buf, req, resp, hdrs, rdy, f⟩ := self
  simp only at hready hbuf
  subst hready hbuf
  have htake : (b :: c).take 4096 = b :: c := List.take_of_length_le (by omega)
  have hstored : ((b :: c).length != 0) = true := by simp
  have hcs := c_str_chunk (b :: c) 4096 (by omega)
  have hlen2 : ((b :: c) ++ (List.replicate 4096 (0 : Byte)).drop (b :: c).length).length
      = 4096 := by
    simp only [List.length_append, List.length_drop, List.length_replicate]
    omega
  simp only [async_http_request_t.serve, if_true, tcp_socket_t.receive, hrecv,
    List.length_replicate, htake, hstored, hcs, hlen2]

theorem last_delivery_delivered (polls : List Poll) (t : Int)
    (h : last_delivery polls = some t) : delivered polls ≠ [] := by
  induction polls with
  | nil => simp [last_delivery] at h
  | cons p polls ih =>
    unfold last_delivery at h
    unfold delivered
    cases hl : last_delivery polls with
    | some t2 =>
      rw [hl] at h
      simp only [Option.some.injEq] at h
      subst h
      intro hnil
      exact ih hl (List.append_eq_nil.mp hnil).2
    | none =>
      rw [hl] at h
      simp only at h
      cases hr : p.recv with
      | none => simp [Poll.receive_fails, hr] at h
      | some chunk =>
        cases chunk with
        | nil => simp [Poll.receive_fails, hr] at h
        | cons b c => simp

/-- While no call of the loop returns complete, a fully-sent engine accumulates
exactly the delivered bytes and its deadline follows the last delivery. -/
theorem serve_loop_quiet (cb : Cb) (polls : List Poll) :
    ∀ self : async_http_request_t Cb,
      self.ready_to_receive = true → self.callback = some cb →
      self.response_buffer = List.replicate 4096 0 →
      (∀ p ∈ polls, ∀ c, p.recv = some c → c.length ≤ 4095 ∧ (0 : Byte) ∉ c) →
      completes (serve_loop self polls) = false →
      serve_loop self polls
        = .ok (false,
            { self with
                response := self.response ++ delivered polls
                packet_timeout := (last_delivery polls).elim self.packet_timeout (· + 50) },
            polls.map (fun _ => Event.receive 4096)) := by
  induction polls with
  | nil =>
    intro self _ _ _ _ _
    simp [serve_loop, delivered, last_delivery]
  | cons p polls ih =>
    intro self hready hcb hbuf hchunks hquiet
    have hlenb : self.response_buffer.length = 4096 := by rw [hbuf, List.length_replicate]
    have hrest : ∀ q ∈ polls, ∀ c, q.recv = some c → c.length ≤ 4095 ∧ (0 : Byte) ∉ c :=
      fun q hq => hchunks q (List.mem_cons_of_mem _ hq)
    -- the state after the receive attempt of this call
    obtain ⟨mid, now, hserve, hmr, hmc, hmb, hmresp⟩ :
        ∃ (mid : async_http_request_t Cb) (now : Int),
          self.serve p = serve_deadline mid [Event.receive 4096] now ∧
          mid.ready_to_receive = true ∧ mid.callback = some cb ∧
          mid.response_buffer = List.replicate 4096 0 ∧
          mid = { self with
                    response := self.response
                      ++ (match p.recv with | some chunk => chunk | none => [])
                    packet_timeout :=
                      if p.receive_fails then self.packet_timeout else p.now1 + 50 } := by
      cases hr : p.recv with
      | none =>
        have hf : p.receive_fails = true := by simp [Poll.receive_fails, hr]
        refine ⟨self, p.now1, ?_, hready, hcb, hbuf, ?_⟩
        · rw [serve_receive_fails self p hready hf, hlenb]
        · simp [hf]
      | some chunk =>
        cases chunk with
        | nil =>
          have hf : p.receive_fails = true := by simp [Poll.receive_fails, hr]
          refine ⟨self, p.now1, ?_, hready, hcb, hbuf, ?_⟩
          · rw [serve_receive_fails self p hready hf, hlenb]
          · simp [hf]
        | cons b c =>
          have hf : p.receive_fails = false := by simp [Poll.receive_fails, hr]
          have hc := hchunks p (List.mem_cons_self _ _) (b :: c) hr
          refine ⟨_, p.now2, serve_receive_chunk self p b c hready hbuf hr hc.1, hready, hcb,
            hbuf, ?_⟩
          rw [takeWhile_of_no_zero _ hc.2]
          simp [hf]
    by_cases hnow : now ≥ mid.packet_timeout
    · -- this call would complete: excluded by `hquiet`
      exfalso
      have hs : self.serve p
          = .ok (true, mid, [Event.receive 4096] ++ [Event.callback cb (final_text mid),
              Event.close]) := by
        rw [hserve]
        simp [serve_deadline, hnow, hmc, final_text]
      rw [serve_loop_cons_complete self mid p polls _ hs] at hquiet
      simp [completes] at hquiet
    · have hs : self.serve p = .ok (false, mid, [Event.receive 4096]) := by
        rw [hserve]
        simp [serve_deadline, hnow]
      have hq2 : completes (serve_loop mid polls) = false := by
        cases hres : serve_loop mid polls with
        | error e => rfl
        | ok r =>
          obtain ⟨c2, last, more⟩ := r
          rw [serve_loop_cons_continue self mid last p polls _ more c2 hs hres] at hquiet
          cases c2 with
          | false => rfl
          | true => simp [completes] at hquiet
      have hih := ih mid hmr hmc hmb hrest hq2
      rw [serve_loop_cons_continue self mid _ p polls _ _ false hs hih]
      subst hmresp
      simp only [List.singleton_append, List.map_cons, delivered, last_delivery,
        List.append_assoc]
      congr 3
      cases hl : last_delivery polls with
      | some t => simp
      | none =>
        by_cases hf : p.receive_fails = true
        · simp [hf]
        · simp [hf]

/-- The finalizing call: in the fully-sent state with a stored callback, a call
whose receive fails at or past the deadline invokes the callback, closes the
transport and returns complete, leaving the engine as it was. -/
theorem serve_finalize (self : async_http_request_t Cb) (p : Poll) (cb : Cb)
    (hready : self.ready_to_receive = true) (hcb : self.callback = some cb)
    (hfail : p.receive_fails = true) (hnow : self.packet_timeout ≤ p.now1) :
    self.serve p
      = .ok (true, self,
          [Event.receive self.response_buffer.length, Event.callback cb (final_text self),
            Event.close]) := by
  rw [serve_receive_fails self p hready hfail]
  simp [serve_deadline, hnow, hcb, final_text]

/-- C3 (amended): for a fully-sent request with nothing received yet, let the
calls `polls` deliver chunks of at most 4095 bytes that contain no zero byte, the
last delivery at clock time `t`, none of these calls returning complete.  Then a
call made at or past `t + 50` whose receive fails invokes the callback with
exactly the concatenation, in arrival order, of all bytes received, closes the
transport and returns complete. -/
theorem quiescence_delivers (self : async_http_request_t Cb) (cb : Cb) (polls : List Poll)
    (fin : Poll) (t : Int)
    (hready : self.ready_to_receive = true) (hcb : self.callback = some cb)
    (hresp : self.response = []) (hbuf : self.response_buffer = List.replicate 4096 0)
    (hchunks : ∀ p ∈ polls, ∀ c, p.recv = some c → c.length ≤ 4095 ∧ (0 : Byte) ∉ c)
    (hquiet : completes (serve_loop self polls) = false)
    (hlast : last_delivery polls = some t)
    (hfin : fin.receive_fails = true ∧ t + 50 ≤ fin.now1) :
    let after : async_http_request_t Cb :=
      { self with response := delivered polls, packet_timeout := t + 50 }
    serve_loop self polls = .ok (false, after, polls.map (fun _ => Event.receive 4096)) ∧
    after.serve fin
      = .ok (true, after,
          [Event.receive 4096, Event.callback cb (delivered polls), Event.close]) := by
  intro after
  have hloop := serve_loop_quiet cb polls self hready hcb hbuf hchunks hquiet
  rw [hlast, hresp] at hloop
  have hne := last_delivery_delivered polls t hlast
  refine ⟨by simpa using hloop, ?_⟩
  have hfinal := serve_finalize after fin cb hready hcb hfin.1 hfin.2
  have hlen : after.response_buffer.length = 4096 := by
    show self.response_buffer.length = 4096
    rw [hbuf, List.length_replicate]
  have htext : final_text after = delivered polls := by
    show (if (delivered polls).isEmpty then bytes "No data" else delivered polls) = _
    cases hd : delivered polls with
    | nil => exact absurd hd hne
    | cons b c => rfl
  rw [hlen, htext] at hfinal
  exact hfinal

theorem example_sent_buffer (t0 : Int) :
    (example_sent t0).response_buffer = List.replicate 4096 0 := rfl

theorem example_receiving_buffer (response : Str) (deadline : Int) :
    (example_receiving response deadline).response_buffer = List.replicate 4096 0 := rfl

theorem example_receiving_buffer_length (response : Str) (deadline : Int) :
    (example_receiving response deadline).response_buffer.length = 4096 := by
  rw [example_receiving_buffer, List.length_replicate]

theorem serve_loop_nil (self : async_http_request_t Cb) :
    serve_loop self [] = .ok (false, self, []) := rfl

/-- Witness for C3 (amended): `"HTTP/1.1 200 OK\r\n\r\nhello"` delivered in two
pieces at clock times 10 and 20, then a call at 70 that receives nothing. -/
theorem quiescence_delivers_witness :
    ((example_sent 0).ready_to_receive = true ∧ (example_sent 0).callback = some 7 ∧
      (example_sent 0).response = []) ∧
    last_delivery [⟨true, some (bytes "HTTP/1.1 200 OK\r\n"), 10, 10⟩,
      ⟨true, some (bytes "\r\nhello"), 20, 20⟩] = some 20 ∧
    (example_receiving (bytes "HTTP/1.1 200 OK\r\n\r\nhello") 70).serve ⟨true, none, 70, 70⟩
      = .ok (true, example_receiving (bytes "HTTP/1.1 200 OK\r\n\r\nhello") 70,
          [Event.receive 4096, Event.callback 7 (bytes "HTTP/1.1 200 OK\r\n\r\nhello"),
            Event.close]) :=
  ⟨by decide, by decide,
   (quiescence_delivers (example_sent 0) 7
      [⟨true, some (bytes "HTTP/1.1 200 OK\r\n"), 10, 10⟩, ⟨true, some (bytes "\r\nhello"), 20, 20⟩]
      ⟨true, none, 70, 70⟩ 20 (by decide) (by decide) (by decide) (example_sent_buffer 0)
      (by decide)
      (by
        have h1 : (example_sent 0).serve ⟨true, some (bytes "HTTP/1.1 200 OK\r\n"), 10, 10⟩
            = .ok (false, example_receiving (bytes "HTTP/1.1 200 OK\r\n") 60,
                [Event.receive 4096]) := by
          rw [serve_receive_chunk (example_sent 0) _ 72 (bytes "TTP/1.1 200 OK\r\n") (by decide)
            (example_sent_buffer 0) (by decide) (by decide)]
          rfl
        have h2 : (example_receiving (bytes "HTTP/1.1 200 OK\r\n") 60).serve
              ⟨true, some (bytes "\r\nhello"), 20, 20⟩
            = .ok (false, example_receiving (bytes "HTTP/1.1 200 OK\r\n\r\nhello") 70,
                [Event.receive 4096]) := by
          rw [serve_receive_chunk (example_receiving (bytes "HTTP/1.1 200 OK\r\n") 60) _ 13
            (bytes "\nhello") (by decide) (example_receiving_buffer _ _) (by decide) (by decide)]
          rfl
        rw [serve_loop_cons_continue _ _ _ _ _ _ _ _ h1
          (serve_loop_cons_continue _ _ _ _ _ _ _ _ h2 (serve_loop_nil _))]
        rfl)
      (by decide) (by decide)).2⟩

/-- Counterexample to C3 as stated: a fully-sent request receives the 3-byte
chunk `41 00 42` at clock time 10; the call at 60, after the 50 ms gap, passes
the callback the single byte `41`, not the three bytes received. -/
theorem quiescence_truncates_at_zero_byte :
    ((example_sent 0).ready_to_receive = true ∧ (example_sent 0).response = [] ∧
      ([65, 0, 66] : Str).length ≤ 4096) ∧
    (example_sent 0).serve ⟨true, some [65, 0, 66], 10, 10⟩
      = .ok (false, example_receiving [65] 60, [Event.receive 4096]) ∧
    (example_receiving [65] 60).serve ⟨true, none, 60, 60⟩
      = .ok (true, example_receiving [65] 60,
          [Event.receive 4096, Event.callback 7 [65], Event.close]) ∧
    ([65] : Str) ≠ delivered [⟨true, some [65, 0, 66], 10, 10⟩] := by
  refine ⟨by decide, ?_, ?_, by decide⟩
  · rw [serve_receive_chunk (example_sent 0) _ 65 [0, 66] (by decide) (example_sent_buffer 0)
      (by decide) (by decide)]
    rfl
  · rw [serve_finalize (example_receiving [65] 60) ⟨true, none, 60, 60⟩ 7 (by decide) (by decide)
      (by decide) (by decide), example_receiving_buffer_length]
    rfl

/-! ### The engine: how often the callback is invoked -/

theorem callbacks_append (a b : List (Event Cb)) :
    callbacks (a ++ b) = callbacks a ++ callbacks b := by
  induction a with
  | nil => rfl
  | cons e a ih => cases e <;> simp [callbacks, ih]

theorem serve_deadline_callbacks (self : async_http_request_t Cb) (cb : Cb)
    (events : List (Event Cb)) (now : Int)
    (hcb : self.callback = some cb) (hev : callbacks events = []) :
    ∃ (done : Bool) (out : List (Event Cb)),
      serve_deadline self events now = .ok (done, self, out) ∧
      callbacks out = if done then [(cb, final_text self)] else [] := by
  by_cases hnow : now ≥ self.packet_timeout
  · refine ⟨true, events ++ [Event.callback cb (final_text self), Event.close],
      by simp only [serve_deadline, hnow, if_true, hcb, final_text], ?_⟩
    simp [callbacks_append, hev, callbacks]
  · exact ⟨false, events, by simp only [serve_deadline, hnow, if_false], by simp [hev]⟩

/-- One `serve` call of an engine that stores the callback `cb` and has its
scratch buffer zero-filled, with a chunk of at most 4095 bytes: the call returns,
keeps both properties, and invokes `cb` once if it returns complete and no
callback otherwise. -/
theorem serve_callbacks (self : async_http_request_t Cb) (cb : Cb) (p : Poll)
    (hcb : self.callback = some cb) (hbuf : self.response_buffer = List.replicate 4096 0)
    (hchunk : ∀ c, p.recv = some c → c.length ≤ 4095) :
    ∃ (done : Bool) (next : async_http_request_t Cb) (out : List (Event Cb)),
      self.serve p = .ok (done, next, out) ∧
      next.callback = some cb ∧ next.response_buffer = List.replicate 4096 0 ∧
      callbacks out = if done then [(cb, final_text next)] else [] := by
  by_cases hready : self.ready_to_receive = true
  · by_cases hf : p.receive_fails = true
    · obtain ⟨done, out, h1, h2⟩ :=
        serve_deadline_callbacks self cb [Event.receive self.response_buffer.length] p.now1 hcb rfl
      exact ⟨done, self, out, by rw [serve_receive_fails self p hready hf, h1], hcb, hbuf, h2⟩
    · obtain ⟨b, c, hr⟩ : ∃ b c, p.recv = some (b :: c) := by
        unfold Poll.receive_fails at hf
        cases hr : p.recv with
        | none => simp [hr] at hf
        | some chunk =>
          cases chunk with
          | nil => simp [hr] at hf
          | cons b c => exact ⟨b, c, rfl⟩
      have hs := serve_receive_chunk self p b c hready hbuf hr (hchunk _ hr)
      obtain ⟨done, out, h1, h2⟩ :=
        serve_deadline_callbacks
          { self with
              response := self.response ++ (b :: c).takeWhile (fun x => x ≠ 0)
              packet_timeout := p.now1 + 50 }
          cb [Event.receive 4096] p.now2 hcb rfl
      exact ⟨done,
        { self with
            response := self.response ++ (b :: c).takeWhile (fun x => x ≠ 0)
            packet_timeout := p.now1 + 50 },
        out, by rw [hs, h1], hcb, hbuf, h2⟩
  · have hready2 : self.ready_to_receive = false := by simpa using hready
    by_cases hsend : p.send = true
    · exact ⟨false, { self with packet_timeout := p.now1 + 5000, ready_to_receive := true },
        [Event.send self.request],
        by simp only [async_http_request_t.serve, hready2, hsend, if_true, Bool.false_eq_true,
          if_false], hcb, hbuf, rfl⟩
    · exact ⟨false, self, [Event.send self.request],
        by simp only [async_http_request_t.serve, hready2, hsend, Bool.false_eq_true, if_false],
        hcb, hbuf, rfl⟩

/-- The polling loop over any answers of transport and clock returns, and
invokes the stored callback once if a call returned complete and not at all
otherwise. -/
theorem serve_loop_callbacks (cb : Cb) (polls : List Poll) :
    ∀ self : async_http_request_t Cb,
      self.callback = some cb → self.response_buffer = List.replicate 4096 0 →
      (∀ p ∈ polls, ∀ c, p.recv = some c → c.length ≤ 4095) →
      ∃ (done : Bool) (last : async_http_request_t Cb) (out : List (Event Cb)),
        serve_loop self polls = .ok (done, last, out) ∧
        callbacks out = if done then [(cb, final_text last)] else [] := by
  induction polls with
  | nil => exact fun self _ _ _ => ⟨false, self, [], rfl, rfl⟩
  | cons p polls ih =>
    intro self hcb hbuf hchunks
    obtain ⟨done, next, out, hs, hncb, hnbuf, hout⟩ :=
      serve_callbacks self cb p hcb hbuf (hchunks p (List.mem_cons_self _ _))
    cases done with
    | true => exact ⟨true, next, out, serve_loop_cons_complete self next p polls out hs, hout⟩
    | false =>
      obtain ⟨done2, last, more, hl, hmore⟩ :=
        ih next hncb hnbuf (fun q hq => hchunks q (List.mem_cons_of_mem _ hq))
      refine ⟨done2, last, out ++ more,
        serve_loop_cons_continue self next last p polls out more done2 hs hl, ?_⟩
      rw [callbacks_append, hout, hmore]
      simp

/-- A successful `get` arms the engine: only the pending request, the response
accumulator, the fully-sent flag and the callback are written, and the single
operation issued is the connect to port 80. -/
theorem get_armed (self : async_http_request_t Cb) (url : Str) (cb : Cb) (host path : Str)
    (hp : parse_url url = some (host, path)) :
    self.get url cb true
      = ({ self with
            request := specGetRequest host path self.headers
            response := []
            ready_to_receive := false
            callback := some cb },
         [Event.connect host 80]) := by
  simp [async_http_request_t.get, hp, append_headers_eq, specGetRequest, terminator]

/-- A successful `post` arms the engine in the same way. -/
theorem post_armed (self : async_http_request_t Cb) (url : Str) (cb : Cb) (ct : content_type_t)
    (data host path : Str) (hp : parse_url url = some (host, path)) :
    self.post url cb ct data true
      = ({ self with
            request := specPostRequest host path self.headers (content_type_str ct)
              (to_string (encoded_data ct data).length) (encoded_data ct data)
            response := []
            ready_to_receive := false
            callback := some cb },
         [Event.connect host 80]) := by
  simp [async_http_request_t.post, hp, append_headers_eq, specPostRequest, terminator]

/-- C2 (amended): `get` and `post` invoke their callback exactly once themselves,
with `"Invalid URL"` or `"Connection failed"`, when the URL does not decompose or
the connect fails, and leave the engine unchanged.  Otherwise they do not invoke
it, and the polling loop that follows (serve calls up to and including the first
that returns complete) returns and invokes it exactly once if a call returned
complete, with the accumulated response text or `"No data"`, and not at all if
none did.  The buffer is zero-filled as the constructor leaves it and received
chunks have at most 4095 bytes. -/
theorem callback_once_until_complete (self : async_http_request_t Cb) (url : Str) (cb : Cb)
    (ct : content_type_t) (data : Str) (connect : Bool) (polls : List Poll)
    (hbuf : self.response_buffer = List.replicate 4096 0)
    (hchunks : ∀ p ∈ polls, ∀ c, p.recv = some c → c.length ≤ 4095) :
    ∀ r ∈ [self.get url cb connect, self.post url cb ct data connect],
      (parse_url url = none → r.1 = self ∧ callbacks r.2 = [(cb, bytes "Invalid URL")]) ∧
      ((parse_url url).isSome = true → connect = false →
        r.1 = self ∧ callbacks r.2 = [(cb, bytes "Connection failed")]) ∧
      ((parse_url url).isSome = true → connect = true →
        callbacks r.2 = [] ∧
        ∃ (done : Bool) (last : async_http_request_t Cb) (out : List (Event Cb)),
          serve_loop r.1 polls = .ok (done, last, out) ∧
          callbacks out = if done then [(cb, final_text last)] else []) := by
  intro r hr
  simp only [List.mem_cons, List.mem_singleton, List.not_mem_nil, or_false] at hr
  cases hp : parse_url url with
  | none =>
    refine ⟨fun _ => ?_, fun h => by simp at h, fun h => by simp at h⟩
    rcases hr with rfl | rfl
    · simp [async_http_request_t.get, hp, callbacks]
    · simp [async_http_request_t.post, hp, callbacks]
  | some hostpath =>
    obtain ⟨host, path⟩ := hostpath
    refine ⟨fun h => by simp at h, fun _ hc => ?_, fun _ hc => ?_⟩
    · rcases hr with rfl | rfl
      · simp [async_http_request_t.get, hp, hc, callbacks]
      · simp [async_http_request_t.post, hp, hc, callbacks]
    · subst hc
      rcases hr with rfl | rfl
      · rw [get_armed self url cb host path hp]
        exact ⟨rfl, serve_loop_callbacks cb polls _ rfl hbuf hchunks⟩
      · rw [post_armed self url cb ct data host path hp]
        exact ⟨rfl, serve_loop_callbacks cb polls _ rfl hbuf hchunks⟩

/-- Witness for C2 (amended): a fresh engine, `get("http://www.google.com", f)`,
then two polls. -/
theorem callback_once_until_complete_witness :
    (async_http_request_t.init : async_http_request_t Nat).response_buffer
      = List.replicate 4096 0 ∧
    (∀ p ∈ [(⟨true, none, 0, 0⟩ : Poll), ⟨true, none, 5000, 5000⟩], ∀ c,
      p.recv = some c → c.length ≤ 4095) ∧
    (callbacks ((async_http_request_t.init : async_http_request_t Nat).get
        (bytes "http://www.google.com") 7 true).2 = [] ∧
      ∃ (done : Bool) (last : async_http_request_t Nat) (out : List (Event Nat)),
        serve_loop ((async_http_request_t.init : async_http_request_t Nat).get
            (bytes "http://www.google.com") 7 true).1
          [⟨true, none, 0, 0⟩, ⟨true, none, 5000, 5000⟩] = .ok (done, last, out) ∧
        callbacks out = if done then [(7, final_text last)] else []) :=
  ⟨rfl, by decide,
   ((callback_once_until_complete (async_http_request_t.init : async_http_request_t Nat)
      (bytes "http://www.google.com") 7 content_type_t.json [] true
      [⟨true, none, 0, 0⟩, ⟨true, none, 5000, 5000⟩] rfl (by decide)) _
      (List.mem_cons_self _ _)).2.2 (by decide) rfl⟩

/-- Counterexample to C2 as stated: after `get("http://www.google.com", f)` the
send succeeds at clock time 0 and nothing is received; the `serve` call at 5000
returns complete and invokes `f` with `"No data"`, and the `serve` call made
after it, at 5001, returns complete and invokes `f` a second time. -/
theorem callback_invoked_twice :
    example_armed.serve ⟨true, none, 0, 0⟩
      = .ok (false, example_sent 0, [Event.send example_armed.request]) ∧
    (example_sent 0).serve ⟨true, none, 5000, 5000⟩
      = .ok (true, example_sent 0,
          [Event.receive 4096, Event.callback 7 (bytes "No data"), Event.close]) ∧
    (example_sent 0).serve ⟨true, none, 5001, 5001⟩
      = .ok (true, example_sent 0,
          [Event.receive 4096, Event.callback 7 (bytes "No data"), Event.close]) ∧
    callbacks ([Event.send example_armed.request]
        ++ [Event.receive 4096, Event.callback 7 (bytes "No data"), Event.close]
        ++ [Event.receive 4096, Event.callback 7 (bytes "No data"), Event.close])
      = [((7 : Nat), bytes "No data"), (7, bytes "No data")] := by
  refine ⟨rfl, ?_, ?_, rfl⟩
  · rw [serve_finalize (example_sent 0) ⟨true, none, 5000, 5000⟩ 7 (by decide) (by decide)
      (by decide) (by decide), example_sent_buffer, List.length_replicate]
    rfl
  · rw [serve_finalize (example_sent 0) ⟨true, none, 5001, 5001⟩ 7 (by decide) (by decide)
      (by decide) (by decide), example_sent_buffer, List.length_replicate]
    rfl

/-! ### The header block, line by line -/

theorem specGetRequest_lines (host path : Str) (headers : List (Str × Str)) :
    specGetRequest host path headers
      = ((getLines host path headers).map (fun l => l ++ bytes "\r\n")).flatten
          ++ (bytes "\r\n" ++ []) := by
  have h1 : bytes " HTTP/1.1\r\n" = bytes " HTTP/1.1" ++ bytes "\r\n" := by decide
  have h2 : terminator = bytes "Connection: close" ++ bytes "\r\n" ++ bytes "\r\n" := by decide
  have h3 : (List.map headerLine headers).flatten
      = (List.map (fun l => l ++ bytes "\r\n")
          (List.map (fun h : Str × Str => h.1 ++ bytes ": " ++ h.2) headers)).flatten := by
    rw [List.map_map]
    rfl
  rw [specGetRequest, h1, h2, h3]
  simp [getLines]

theorem specPostRequest_lines (host path : Str) (headers : List (Str × Str))
    (mime len body : Str) :
    specPostRequest host path headers mime len body
      = ((postLines host path headers mime len).map (fun l => l ++ bytes "\r\n")).flatten
          ++ (bytes "\r\n" ++ body) := by
  have h1 : bytes " HTTP/1.1\r\n" = bytes " HTTP/1.1" ++ bytes "\r\n" := by decide
  have h2 : terminator = bytes "Connection: close" ++ bytes "\r\n" ++ bytes "\r\n" := by decide
  have h3 : (List.map headerLine headers).flatten
      = (List.map (fun l => l ++ bytes "\r\n")
          (List.map (fun h : Str × Str => h.1 ++ bytes ": " ++ h.2) headers)).flatten := by
    rw [List.map_map]
    rfl
  rw [specPostRequest, h1, h2, h3]
  simp [postLines]

theorem parse_url_mem (url host path : Str) (hp : parse_url url = some (host, path)) :
    (∀ b ∈ host, b ∈ url) ∧ (∀ b ∈ path, b ∈ url ∨ b = 47) := by
  unfold parse_url at hp
  cases hf : find url (bytes "://") with
  | none => simp [hf] at hp
  | some pos =>
    simp only [hf] at hp
    cases hc : find_char url 47 (pos + 3) with
    | none =>
      simp only [hc, Option.some.injEq, Prod.mk.injEq] at hp
      obtain ⟨rfl, rfl⟩ := hp
      refine ⟨fun b hb => List.mem_of_mem_drop hb, fun b hb => Or.inr ?_⟩
      have : bytes "/" = [47] := by decide
      rw [this] at hb
      simpa using hb
    | some host_end =>
      simp only [hc, Option.some.injEq, Prod.mk.injEq] at hp
      obtain ⟨rfl, rfl⟩ := hp
      exact ⟨fun b hb => List.mem_of_mem_drop (List.mem_of_mem_take hb),
        fun b hb => Or.inl (List.mem_of_mem_drop hb)⟩

theorem to_string_digits_mem (fuel n : Nat) (acc : Str) (b : Byte)
    (hb : b ∈ to_string_digits fuel n acc) : b ∈ acc ∨ (48 ≤ b.val ∧ b.val ≤ 57) := by
  induction fuel generalizing n acc with
  | zero => exact Or.inl hb
  | succ fuel ih =>
    unfold to_string_digits at hb
    by_cases h10 : n < 10
    · simp only [h10, if_true, List.mem_cons] at hb
      rcases hb with rfl | hb
      · right
        show 48 ≤ (48 + n) % 256 ∧ (48 + n) % 256 ≤ 57
        omega
      · exact Or.inl hb
    · simp only [h10, if_false] at hb
      rcases ih _ _ hb with h | h
      · simp only [List.mem_cons] at h
        rcases h with rfl | h
        · right
          show 48 ≤ (48 + n % 10) % 256 ∧ (48 + n % 10) % 256 ≤ 57
          omega
        · exact Or.inl h
      · exact Or.inr h

theorem find_char_from_first (host rest : Str) (c : Byte) (h : c ∉ host) :
    find_char_from (host ++ c :: rest) c = some host.length := by
  induction host with
  | nil => simp [find_char_from]
  | cons a host ih =>
    simp only [List.mem_cons, not_or] at h
    have hne : ¬ a = c := fun e => h.1 e.symm
    show find_char_from (a :: (host ++ c :: rest)) c = _
    rw [find_char_from, if_neg hne, ih h.2]
    rfl

/-- C11: when `"://"` occurs in the URL (first at the end of `pre`) and a `/`
follows it, `parse_url` succeeds; the host is the text between the delimiter and
the next `/` and the path is the text from that `/` to the end, so that the host
holds no `/`, the path starts with `/` and the URL is
`pre ++ "://" ++ host ++ path`.  `parse_url` fails exactly when the URL holds no
`"://"`. -/
theorem parse_url_with_path (pre host rest : Str)
    (hfirst : ∀ pre2 rest2 : Str,
      pre ++ bytes "://" ++ (host ++ 47 :: rest) = pre2 ++ bytes "://" ++ rest2 →
      pre.length ≤ pre2.length)
    (hhost : (47 : Byte) ∉ host) :
    parse_url (pre ++ bytes "://" ++ (host ++ 47 :: rest)) = some (host, 47 :: rest) ∧
    (∀ url : Str, parse_url url = none ↔ ¬ bytes "://" <:+: url) := by
  refine ⟨?_, parse_url_eq_none_iff⟩
  have hlen : (pre ++ bytes "://").length = pre.length + 3 := by simp [bytes]
  have hdrop : (pre ++ bytes "://" ++ (host ++ 47 :: rest)).drop (pre.length + 3)
      = host ++ 47 :: rest := by
    rw [← hlen, List.drop_left]
  have hdrop2 : (pre ++ bytes "://" ++ (host ++ 47 :: rest)).drop (host.length + (pre.length + 3))
      = 47 :: rest := by
    rw [Nat.add_comm, ← List.drop_drop, hdrop, List.drop_left]
  simp only [parse_url, find_first _ pre _ hfirst, find_char, substr, substr_n, hdrop,
    find_char_from_first host rest 47 hhost, Option.map_some', hdrop2, Nat.add_sub_cancel,
    List.take_left]

/-- Witness for C11: `http://postman-echo.com/post` decomposes into host
`postman-echo.com` and path `/post`. -/
theorem parse_url_with_path_witness :
    (47 : Byte) ∉ bytes "postman-echo.com" ∧
    parse_url (bytes "http" ++ bytes "://" ++ (bytes "postman-echo.com" ++ 47 :: bytes "post"))
      = some (bytes "postman-echo.com", 47 :: bytes "post") :=
  ⟨by decide,
   (parse_url_with_path (bytes "http") (bytes "postman-echo.com") (bytes "post")
    (by
      intro pre2 rest2 h
      by_contra hlt
      have hlen : pre2.length < 4 := by simpa [bytes] using hlt
      have h2 := congrArg (fun l => l.drop pre2.length |>.take 3) h
      simp only [List.append_assoc, List.drop_left, List.take_left] at h2
      have h3 : (bytes "://").length = 3 := by decide
      rw [List.take_append_of_le_length (by omega)] at h2
      simp only [← h3, List.take_length] at h2
      interval_cases hl : pre2.length <;> revert h2 <;> decide)
    (by decide)).1⟩

/-! ### The header set -/

theorem headers_replace_filter (name value : Str) (headers : List (Str × Str)) :
    (headers_replace name value headers).filter (fun h => h.1 ≠ name)
      = headers.filter (fun h => h.1 ≠ name) := by
  induction headers with
  | nil => simp [headers_replace]
  | cons h hs ih =>
    unfold headers_replace
    by_cases hn : h.1 = name
    · simp [hn]
    · have hd : decide (h.1 ≠ name) = true := by simpa using hn
      simp only [hn, if_false, List.filter_cons, hd, if_true, ih]

/-- Whatever order the container chooses on insertion, the entries with another
name are the same before and after `headers[name] = value`. -/
theorem headers_assign_filter (name value : Str) (order headers : List (Str × Str)) :
    ((headers_assign name value order headers).filter (fun h => h.1 ≠ name)).Perm
      (headers.filter (fun h => h.1 ≠ name)) := by
  have hcons : ((name, value) :: headers).filter (fun h => h.1 ≠ name)
      = headers.filter (fun h => h.1 ≠ name) := by
    simp [List.filter_cons]
  unfold headers_assign
  by_cases hany : headers.any (fun h => h.1 = name) = true
  · rw [if_pos hany, headers_replace_filter]
  · rw [if_neg hany]
    by_cases hperm : order.Perm ((name, value) :: headers)
    · rw [if_pos hperm, ← hcons]
      exact hperm.filter _
    · rw [if_neg hperm, hcons]

theorem find_name_absent (name : Str) (headers : List (Str × Str))
    (h : ∀ x ∈ headers, x.1 ≠ name) :
    headers.find? (fun x => x.1 = name) = none := by
  rw [List.find?_eq_none]
  intro x hx
  simpa using h x hx

/-- C12: `get_header(n)` is empty when the header set has no entry named `n`.
After `set_header(n, v)` and `remove_header(n)`, whatever iteration order the
container chose on the insertion, the header set holds no entry named `n` and
exactly the other entries it held before, each as often as before:
`get_header(n)` is empty, and the request serialized by `get` and by `post`
carries, between the fixed lines and the terminator, one line per entry of that
header set, so none for `n` and every other stored header unchanged. -/
theorem set_then_remove_header (self : async_http_request_t Cb) (n v : Str)
    (order : List (Str × Str)) (url : Str) (cb : Cb)
    (ct : content_type_t) (data host path : Str) (hp : parse_url url = some (host, path)) :
    ((∀ h ∈ self.headers, h.1 ≠ n) → self.get_header n = bytes "") ∧
    ((self.set_header n v order).remove_header n).get_header n = bytes "" ∧
    (((self.set_header n v order).remove_header n).headers).Perm
      (self.headers.filter (fun h => h.1 ≠ n)) ∧
    (∀ h ∈ ((self.set_header n v order).remove_header n).headers, h.1 ≠ n) ∧
    (∀ h ∈ self.headers, h.1 ≠ n →
      h ∈ ((self.set_header n v order).remove_header n).headers) ∧
    (∀ h ∈ ((self.set_header n v order).remove_header n).headers, h ∈ self.headers) ∧
    (((self.set_header n v order).remove_header n).get url cb true).1.request
      = (bytes "GET " ++ path ++ bytes " HTTP/1.1\r\n")
        ++ (bytes "Host: " ++ host ++ bytes "\r\n")
        ++ ((((self.set_header n v order).remove_header n).headers).map headerLine).flatten
        ++ bytes "Connection: close\r\n\r\n" ∧
    (((self.set_header n v order).remove_header n).post url cb ct data true).1.request
      = (bytes "POST " ++ path ++ bytes " HTTP/1.1\r\n")
        ++ (bytes "Host: " ++ host ++ bytes "\r\n")
        ++ (bytes "Content-Type: " ++ content_type_str ct ++ bytes "\r\n")
        ++ (bytes "Content-Length: " ++ to_string (encoded_data ct data).length ++ bytes "\r\n")
        ++ ((((self.set_header n v order).remove_header n).headers).map headerLine).flatten
        ++ bytes "Connection: close\r\n\r\n"
        ++ encoded_data ct data := by
  have hh : (((self.set_header n v order).remove_header n).headers).Perm
      (self.headers.filter (fun h => h.1 ≠ n)) :=
    headers_assign_filter n v order self.headers
  have hnone : ∀ h ∈ ((self.set_header n v order).remove_header n).headers, h.1 ≠ n := by
    intro h hmem
    simpa using (List.mem_filter.mp (hh.mem_iff.mp hmem)).2
  refine ⟨?_, ?_, hh, hnone, ?_, ?_, ?_, ?_⟩
  · intro habs
    unfold async_http_request_t.get_header
    rw [find_name_absent n _ habs]
  · unfold async_http_request_t.get_header
    rw [find_name_absent n _ hnone]
  · intro h hmem hne
    exact hh.mem_iff.mpr (List.mem_filter.mpr ⟨hmem, by simpa using hne⟩)
  · intro h hmem
    exact (List.mem_filter.mp (hh.mem_iff.mp hmem)).1
  · rw [get_request_eq _ url cb host path hp]
    rfl
  · rw [post_request_eq _ url cb ct data host path hp]
    rfl

/-- Witness for C12: the engine of the example program, setting and removing
`X-Trace`; the insertion moves `Authorization` in front of `User-Agent`, and both
are still sent. -/
theorem set_then_remove_header_witness :
    parse_url (bytes "http://postman-echo.com/post")
      = some (bytes "postman-echo.com", bytes "/post") ∧
    example_headers.headers.map headerLine
      = [bytes "User-Agent: AsyncHttp/1.0\r\n", bytes "Authorization: Bearer 123\r\n"] ∧
    (((example_headers.set_header (bytes "X-Trace") (bytes "1")
          [(bytes "Authorization", bytes "Bearer 123"), (bytes "X-Trace", bytes "1"),
            (bytes "User-Agent", bytes "AsyncHttp/1.0")]).remove_header
        (bytes "X-Trace")).headers).map headerLine
      = [bytes "Authorization: Bearer 123\r\n", bytes "User-Agent: AsyncHttp/1.0\r\n"] ∧
    (((example_headers.set_header (bytes "X-Trace") (bytes "1")
          [(bytes "Authorization", bytes "Bearer 123"), (bytes "X-Trace", bytes "1"),
            (bytes "User-Agent", bytes "AsyncHttp/1.0")]).remove_header
        (bytes "X-Trace")).headers).Perm
      (example_headers.headers.filter (fun h => h.1 ≠ bytes "X-Trace")) :=
  ⟨by decide, by decide, by decide,
   (set_then_remove_header example_headers (bytes "X-Trace") (bytes "1")
      [(bytes "Authorization", bytes "Bearer 123"), (bytes "X-Trace", bytes "1"),
        (bytes "User-Agent", bytes "AsyncHttp/1.0")]
      (bytes "http://postman-echo.com/post") 7 content_type_t.json (bytes "[1, 2]")
      (bytes "postman-echo.com") (bytes "/post") (by decide)).2.2.1⟩

/-! ### The engine: connect -/

/-- C13: for a URL that decomposes into `(host, path)`, `get` and `post` call
`connect` exactly once, with that host and port 80.  When it fails they issue
nothing else but one invocation of the callback with `"Connection failed"` (no
send, receive or close) and return the engine unchanged. -/
theorem connect_once (self : async_http_request_t Cb) (url : Str) (cb : Cb)
    (ct : content_type_t) (data host path : Str) (hp : parse_url url = some (host, path)) :
    self.get url cb false
      = (self, [Event.connect host 80, Event.callback cb (bytes "Connection failed")]) ∧
    self.post url cb ct data false
      = (self, [Event.connect host 80, Event.callback cb (bytes "Connection failed")]) ∧
    (self.get url cb true).2 = [Event.connect host 80] ∧
    (self.post url cb ct data true).2 = [Event.connect host 80] := by
  refine ⟨?_, ?_, ?_, ?_⟩
  · simp [async_http_request_t.get, hp]
  · simp [async_http_request_t.post, hp]
  · rw [get_armed self url cb host path hp]
  · rw [post_armed self url cb ct data host path hp]

/-- Witness for C13: the armed example engine is asked for another URL and the
connect fails. -/
theorem connect_once_witness :
    parse_url (bytes "http://postman-echo.com/post")
      = some (bytes "postman-echo.com", bytes "/post") ∧
    example_armed.get (bytes "http://postman-echo.com/post") 8 false
      = (example_armed,
          [Event.connect (bytes "postman-echo.com") 80,
            Event.callback 8 (bytes "Connection failed")]) :=
  ⟨by decide,
   (connect_once example_armed (bytes "http://postman-echo.com/post") 8 content_type_t.json
      (bytes "[1, 2]") (bytes "postman-echo.com") (bytes "/post") (by decide)).1⟩

/-! ### The engine: the send phase -/

theorem serve_send_fails (self : async_http_request_t Cb) (p : Poll)
    (hflag : self.ready_to_receive = false) (hsend : p.send = false) :
    self.serve p = .ok (false, self, [Event.send self.request]) := by
  simp only [async_http_request_t.serve, hflag, hsend, Bool.false_eq_true, if_false]

theorem serve_send_succeeds (self : async_http_request_t Cb) (p : Poll)
    (hflag : self.ready_to_receive = false) (hsend : p.send = true) :
    self.serve p
      = .ok (false, { self with packet_timeout := p.now1 + 5000, ready_to_receive := true },
          [Event.send self.request]) := by
  simp only [async_http_request_t.serve, hflag, hsend, Bool.false_eq_true, if_false, if_true]

theorem serve_loop_cons_inv (self next last : async_http_request_t Cb) (p : Poll)
    (ps : List Poll) (events evs : List (Event Cb)) (c : Bool)
    (h : self.serve p = .ok (false, next, events))
    (hloop : serve_loop self (p :: ps) = .ok (c, last, evs)) :
    ∃ more, serve_loop next ps = .ok (c, last, more) ∧ evs = events ++ more := by
  rw [serve_loop, h] at hloop
  cases hrest : serve_loop next ps with
  | error e => simp [hrest] at hloop
  | ok r =>
    obtain ⟨c2, last2, more⟩ := r
    simp only [hrest, Except.ok.injEq, Prod.mk.injEq] at hloop
    obtain ⟨rfl, rfl, rfl⟩ := hloop
    exact ⟨more, rfl, rfl⟩

/-- While no send reports success, the polling loop issues nothing but send
attempts of the pending request and leaves the engine as it is. -/
theorem serve_loop_sends_fail (self : async_http_request_t Cb) (polls : List Poll)
    (hflag : self.ready_to_receive = false) (hfail : ∀ p ∈ polls, p.send = false) :
    serve_loop self polls
      = .ok (false, self, polls.map (fun _ => Event.send self.request)) := by
  induction polls with
  | nil => rfl
  | cons p polls ih =>
    exact serve_loop_cons_continue self self self p polls [Event.send self.request] _ false
      (serve_send_fails self p hflag (hfail p (List.mem_cons_self _ _)))
      (ih (fun q hq => hfail q (List.mem_cons_of_mem _ hq)))

/-- Whatever follows, the operations of a polling loop begin with the failed
send attempts and the first successful one. -/
theorem serve_loop_first_send (self last : async_http_request_t Cb) (pre post : List Poll)
    (p : Poll) (c : Bool) (evs : List (Event Cb))
    (hflag : self.ready_to_receive = false) (hfail : ∀ q ∈ pre, q.send = false)
    (hsend : p.send = true)
    (hloop : serve_loop self (pre ++ p :: post) = .ok (c, last, evs)) :
    ∃ more, evs = pre.map (fun _ => Event.send self.request)
      ++ Event.send self.request :: more := by
  induction pre generalizing evs with
  | nil =>
    obtain ⟨more, -, rfl⟩ := serve_loop_cons_inv self _ last p post _ evs c
      (serve_send_succeeds self p hflag hsend) hloop
    exact ⟨more, rfl⟩
  | cons q pre ih =>
    obtain ⟨more, hrest, rfl⟩ := serve_loop_cons_inv self self last q (pre ++ p :: post) _ evs c
      (serve_send_fails self q hflag (hfail q (List.mem_cons_self _ _))) hloop
    obtain ⟨more2, rfl⟩ := ih more (fun r hr => hfail r (List.mem_cons_of_mem _ hr)) hrest
    exact ⟨more2, rfl⟩

/-- C14: `get` and `post` clear the fully-sent flag.  From then on, as long as no
send has reported success the `serve` calls issue send attempts only; when a
send succeeds, every later operation comes after it; and a `serve` call attempts
a receive only when the flag is set. -/
theorem receive_only_after_send (self : async_http_request_t Cb) (url : Str) (cb : Cb)
    (ct : content_type_t) (data host path : Str) (hp : parse_url url = some (host, path)) :
    (∀ r ∈ [self.get url cb true, self.post url cb ct data true],
      r.1.ready_to_receive = false ∧
      (∀ polls : List Poll, (∀ p ∈ polls, p.send = false) →
        serve_loop r.1 polls = .ok (false, r.1, polls.map (fun _ => Event.send r.1.request))) ∧
      (∀ (pre post : List Poll) (p : Poll) (c : Bool) (last : async_http_request_t Cb)
          (evs : List (Event Cb)),
        (∀ q ∈ pre, q.send = false) → p.send = true →
        serve_loop r.1 (pre ++ p :: post) = .ok (c, last, evs) →
        ∃ more, evs = pre.map (fun _ => Event.send r.1.request)
          ++ Event.send r.1.request :: more)) ∧
    (∀ (s next : async_http_request_t Cb) (p : Poll) (c : Bool) (evs : List (Event Cb))
        (n : Nat),
      s.serve p = .ok (c, next, evs) → Event.receive n ∈ evs → s.ready_to_receive = true) := by
  refine ⟨fun r hr => ?_, fun s next p c evs n hs hmem => ?_⟩
  · have hflag : r.1.ready_to_receive = false := by
      simp only [List.mem_cons, List.mem_singleton, List.not_mem_nil, or_false] at hr
      rcases hr with rfl | rfl
      · rw [get_armed self url cb host path hp]
      · rw [post_armed self url cb ct data host path hp]
    exact ⟨hflag, fun polls hfail => serve_loop_sends_fail r.1 polls hflag hfail,
      fun pre post p c last evs hfail hsend hloop =>
        serve_loop_first_send r.1 last pre post p c evs hflag hfail hsend hloop⟩
  · by_contra hflag
    have hflag2 : s.ready_to_receive = false := by simpa using hflag
    by_cases hsend : p.send = true
    · rw [serve_send_succeeds s p hflag2 hsend] at hs
      simp only [Except.ok.injEq, Prod.mk.injEq] at hs
      obtain ⟨-, -, rfl⟩ := hs
      simp at hmem
    · rw [serve_send_fails s p hflag2 (by simpa using hsend)] at hs
      simp only [Except.ok.injEq, Prod.mk.injEq] at hs
      obtain ⟨-, -, rfl⟩ := hs
      simp at hmem

/-- Witness for C14: after `get("http://www.google.com", f)` two send attempts
fail; both calls issue a send and nothing else. -/
theorem receive_only_after_send_witness :
    parse_url (bytes "http://www.google.com") = some (bytes "www.google.com", bytes "/") ∧
    serve_loop ((async_http_request_t.init : async_http_request_t Nat).get
        (bytes "http://www.google.com") 7 true).1
        [⟨false, some (bytes "x"), 0, 0⟩, ⟨false, none, 1, 1⟩]
      = .ok (false,
          ((async_http_request_t.init : async_http_request_t Nat).get
            (bytes "http://www.google.com") 7 true).1,
          [(⟨false, some (bytes "x"), 0, 0⟩ : Poll), ⟨false, none, 1, 1⟩].map
            (fun _ => Event.send ((async_http_request_t.init : async_http_request_t Nat).get
              (bytes "http://www.google.com") 7 true).1.request)) :=
  ⟨by decide,
   ((receive_only_after_send (async_http_request_t.init : async_http_request_t Nat)
      (bytes "http://www.google.com") 7 content_type_t.json [] (bytes "www.google.com")
      (bytes "/") (by decide)).1 _ (List.mem_cons_self _ _)).2.1
      [⟨false, some (bytes "x"), 0, 0⟩, ⟨false, none, 1, 1⟩] (by decide)⟩

/-- C16: in a state that is not fully sent, a `serve` call issues exactly one
operation, a send of the whole pending request, and returns not-complete.  If
the send succeeds only the flag and the deadline change, the deadline to
`now + 5000`; if it fails the engine is unchanged.  In both cases the pending
request and the response accumulator are as before. -/
theorem serve_send_phase (self : async_http_request_t Cb) (p : Poll)
    (hflag : self.ready_to_receive = false) :
    (p.send = true →
      self.serve p
        = .ok (false, { self with packet_timeout := p.now1 + 5000, ready_to_receive := true },
            [Event.send self.request])) ∧
    (p.send = false → self.serve p = .ok (false, self, [Event.send self.request])) ∧
    ∃ next : async_http_request_t Cb,
      self.serve p = .ok (false, next, [Event.send self.request]) ∧
      next.request = self.request ∧ next.response = self.response ∧
      next.ready_to_receive = p.send := by
  refine ⟨serve_send_succeeds self p hflag, serve_send_fails self p hflag, ?_⟩
  by_cases hsend : p.send = true
  · exact ⟨_, serve_send_succeeds self p hflag hsend, rfl, rfl, hsend.symm⟩
  · have hs : p.send = false := by simpa using hsend
    exact ⟨self, serve_send_fails self p hflag hs, rfl, rfl, by rw [hflag, hs]⟩

/-- Witness for C16: the armed example engine, a send that succeeds at clock
time 0. -/
theorem serve_send_phase_witness :
    example_armed.ready_to_receive = false ∧
    example_armed.serve ⟨true, none, 0, 0⟩
      = .ok (false, example_sent 0, [Event.send example_armed.request]) :=
  ⟨by decide, (serve_send_phase example_armed ⟨true, none, 0, 0⟩ (by decide)).1 rfl⟩

/-! ### The engine: when `serve` returns complete -/

theorem serve_deadline_spec (self : async_http_request_t Cb) (cb : Cb)
    (events : List (Event Cb)) (now : Int) (hcb : self.callback = some cb) :
    ∃ (c : Bool) (evs : List (Event Cb)),
      serve_deadline self events now = .ok (c, self, evs) ∧
      (c = true ↔ self.packet_timeout ≤ now) ∧
      (c = true → evs = events ++ [Event.callback cb (final_text self), Event.close]) ∧
      (c = false → evs = events) := by
  by_cases hnow : now ≥ self.packet_timeout
  · refine ⟨true, events ++ [Event.callback cb (final_text self), Event.close],
      by simp only [serve_deadline, hnow, if_true, hcb, final_text], ?_, fun _ => rfl,
      fun h => by simp at h⟩
    simpa using hnow
  · refine ⟨false, events, by simp only [serve_deadline, hnow, if_false], ?_,
      fun h => by simp at h, fun _ => rfl⟩
    simpa using hnow

/-- A full buffer without a zero byte: when `recv` fills the 4096-byte buffer
with non-zero bytes, the C-string read of `serve` finds no terminator. -/
theorem serve_overrun (self : async_http_request_t Cb) (p : Poll) (chunk : Str)
    (hready : self.ready_to_receive = true)
    (hbuf : self.response_buffer = List.replicate 4096 0)
    (hrecv : p.recv = some chunk) (hlen : 4096 ≤ chunk.length)
    (hzero : (0 : Byte) ∉ chunk.take 4096) :
    self.serve p = .error Fault.buffer_overrun := by
  have hl : (chunk.take 4096).length = 4096 := by
    rw [List.length_take]
    omega
  have hdrop : (List.replicate 4096 (0 : Byte)).drop 4096 = [] := by
    rw [List.drop_replicate]
    rfl
  have hstored : ((4096 : Nat) != 0) = true := by decide
  have hc : c_str (chunk.take 4096 ++ []) = none := by
    rw [List.append_nil, c_str, if_neg hzero]
  unfold async_http_request_t.serve
  rw [if_pos hready]
  simp only [tcp_socket_t.receive, hrecv, hbuf, List.length_replicate, hl, hdrop, hstored, hc]

/-- C15 (amended): for every engine that stores a callback and has its scratch
buffer zero-filled, and every answer of transport and clock with a chunk of at
most 4095 bytes, a `serve` call returns; it returns complete exactly when the
engine was fully sent and the clock sampled after the receive attempt is at or
past the deadline then in force, and in that case it has issued the receive
attempt, the invocation of the callback and the close; a call that returns
not-complete has neither invoked a callback nor closed the transport. -/
theorem serve_complete_iff (self : async_http_request_t Cb) (cb : Cb) (p : Poll)
    (hcb : self.callback = some cb) (hbuf : self.response_buffer = List.replicate 4096 0)
    (hchunk : ∀ c, p.recv = some c → c.length ≤ 4095) :
    ∃ (c : Bool) (next : async_http_request_t Cb) (evs : List (Event Cb)),
      self.serve p = .ok (c, next, evs) ∧
      (c = true ↔
        (self.ready_to_receive = true ∧
          next.packet_timeout ≤ (if p.receive_fails then p.now1 else p.now2))) ∧
      (c = true →
        evs = [Event.receive 4096, Event.callback cb (final_text next), Event.close]) ∧
      (c = false → (∀ f r, Event.callback f r ∉ evs) ∧ Event.close ∉ evs) := by
  have hlenb : self.response_buffer.length = 4096 := by rw [hbuf, List.length_replicate]
  by_cases hready : self.ready_to_receive = true
  · by_cases hf : p.receive_fails = true
    · obtain ⟨c, evs, h1, h2, h3, h4⟩ :=
        serve_deadline_spec self cb [Event.receive self.response_buffer.length] p.now1 hcb
      refine ⟨c, self, evs, by rw [serve_receive_fails self p hready hf, h1], ?_, ?_, ?_⟩
      · simp only [hready, hf, if_true, true_and]
        exact h2
      · intro hc
        rw [h3 hc, hlenb]
        rfl
      · intro hc
        rw [h4 hc]
        simp
    · obtain ⟨b, chunk, hr⟩ : ∃ b chunk, p.recv = some (b :: chunk) := by
        unfold Poll.receive_fails at hf
        cases hr : p.recv with
        | none => simp [hr] at hf
        | some chunk =>
          cases chunk with
          | nil => simp [hr] at hf
          | cons b chunk => exact ⟨b, chunk, rfl⟩
      have hs := serve_receive_chunk self p b chunk hready hbuf hr (hchunk _ hr)
      obtain ⟨c, evs, h1, h2, h3, h4⟩ :=
        serve_deadline_spec
          { self with
              response := self.response ++ (b :: chunk).takeWhile (fun x => x ≠ 0)
              packet_timeout := p.now1 + 50 }
          cb [Event.receive 4096] p.now2 hcb
      refine ⟨c,
        { self with
            response := self.response ++ (b :: chunk).takeWhile (fun x => x ≠ 0)
            packet_timeout := p.now1 + 50 },
        evs, by rw [hs, h1], ?_, ?_, ?_⟩
      · simp only [hready, hf, Bool.false_eq_true, if_false, true_and]
        exact h2
      · intro hc
        rw [h3 hc]
        rfl
      · intro hc
        rw [h4 hc]
        simp
  · have hflag : self.ready_to_receive = false := by simpa using hready
    by_cases hsend : p.send = true
    · exact ⟨false, _, _, serve_send_succeeds self p hflag hsend, by simp [hflag],
        fun h => by simp at h, fun _ => by simp⟩
    · exact ⟨false, self, _, serve_send_fails self p hflag (by simpa using hsend),
        by simp [hflag], fun h => by simp at h, fun _ => by simp⟩

/-- Witness for C15 (amended): the fully-sent example engine polled at its
deadline. -/
theorem serve_complete_iff_witness :
    (example_sent 0).callback = some 7 ∧
    (∀ c, (⟨true, none, 5000, 5000⟩ : Poll).recv = some c → c.length ≤ 4095) ∧
    ∃ (c : Bool) (next : async_http_request_t Nat) (evs : List (Event Nat)),
      (example_sent 0).serve ⟨true, none, 5000, 5000⟩ = .ok (c, next, evs) ∧
      (c = true ↔
        ((example_sent 0).ready_to_receive = true ∧
          next.packet_timeout ≤
            (if (⟨true, none, 5000, 5000⟩ : Poll).receive_fails then (5000 : Int) else 5000))) ∧
      (c = true →
        evs = [Event.receive 4096, Event.callback 7 (final_text next), Event.close]) ∧
      (c = false → (∀ f r, Event.callback f r ∉ evs) ∧ Event.close ∉ evs) :=
  ⟨by decide, by decide,
   serve_complete_iff (example_sent 0) 7 ⟨true, none, 5000, 5000⟩ (by decide)
     (example_sent_buffer 0) (by decide)⟩

/-- Counterexample to C15 as stated: a fresh engine whose first `serve` call
finds the send succeeding at clock time 0 is fully sent with no callback stored;
the `serve` call at 5000 invokes the empty callback and does not return.  And a
fully-sent engine that receives 4096 non-zero bytes reads past its buffer. -/
theorem serve_does_not_return :
    (async_http_request_t.init : async_http_request_t Nat).serve ⟨true, none, 0, 0⟩
      = .ok (false, example_no_callback, [Event.send []]) ∧
    example_no_callback.serve ⟨true, none, 5000, 5000⟩ = .error Fault.bad_function_call ∧
    (example_sent 0).serve ⟨true, some (List.replicate 4096 65), 10, 10⟩
      = .error Fault.buffer_overrun := by
  refine ⟨rfl, ?_, ?_⟩
  · rw [serve_receive_fails example_no_callback ⟨true, none, 5000, 5000⟩ (by decide) (by decide)]
    rfl
  · refine serve_overrun (example_sent 0) _ (List.replicate 4096 65) (by decide)
      (example_sent_buffer 0) rfl (by rw [List.length_replicate]) ?_
    intro h
    have h2 := List.mem_replicate.mp (List.mem_of_mem_take h)
    exact absurd h2.2 (by decide)

/-! ### The engine: the receive phase -/

theorem serve_deadline_frame (self next : async_http_request_t Cb) (events evs : List (Event Cb))
    (now : Int) (c : Bool) (h : serve_deadline self events now = .ok (c, next, evs)) :
    next = self ∧ (c = true → self.packet_timeout ≤ now) := by
  unfold serve_deadline at h
  by_cases hnow : now ≥ self.packet_timeout
  · rw [if_pos hnow] at h
    cases hcb : self.callback with
    | none => simp [hcb] at h
    | some f =>
      simp only [hcb, Except.ok.injEq, Prod.mk.injEq] at h
      exact ⟨h.2.1.symm, fun _ => hnow⟩
  · rw [if_neg hnow] at h
    simp only [Except.ok.injEq, Prod.mk.injEq] at h
    exact ⟨h.2.1.symm, fun hc => by rw [← h.1] at hc; simp at hc⟩

theorem serve_deadline_returns (self : async_http_request_t Cb) (events : List (Event Cb))
    (now : Int) (h : self.callback.isSome = true ∨ now < self.packet_timeout) :
    ∃ r, serve_deadline self events now = .ok r := by
  unfold serve_deadline
  by_cases hnow : now ≥ self.packet_timeout
  · rw [if_pos hnow]
    rcases h with h | h
    · cases hcb : self.callback with
      | none => simp [hcb] at h
      | some f => exact ⟨_, rfl⟩
    · omega
  · rw [if_neg hnow]
    exact ⟨_, rfl⟩

/-- C17 (amended): in the fully-sent state, a `serve` call whose receive fails
(an error or 0 bytes, with the same result) leaves the response accumulator and
the deadline unchanged and returns complete only if the clock is at or past that
deadline.  A call that receives a chunk of at most 4095 bytes into the
zero-filled buffer appends the received bytes up to their first zero byte, all of
them when the chunk holds none, and sets the deadline to `now + 50`.  Either call
returns when a callback is stored or the deadline is not reached. -/
theorem serve_receive_phase (self : async_http_request_t Cb) (p : Poll)
    (hready : self.ready_to_receive = true) :
    (p.receive_fails = true →
      (∀ (c : Bool) (next : async_http_request_t Cb) (evs : List (Event Cb)),
        self.serve p = .ok (c, next, evs) →
        next.response = self.response ∧ next.packet_timeout = self.packet_timeout ∧
        (c = true → self.packet_timeout ≤ p.now1)) ∧
      (self.callback.isSome = true ∨ p.now1 < self.packet_timeout →
        ∃ r, self.serve p = .ok r) ∧
      self.serve p = self.serve ⟨p.send, none, p.now1, p.now2⟩ ∧
      self.serve p = self.serve ⟨p.send, some [], p.now1, p.now2⟩) ∧
    (∀ (b : Byte) (chunk : Str), p.recv = some (b :: chunk) → (b :: chunk).length ≤ 4095 →
      self.response_buffer = List.replicate 4096 0 →
      (∀ (c : Bool) (next : async_http_request_t Cb) (evs : List (Event Cb)),
        self.serve p = .ok (c, next, evs) →
        next.response = self.response ++ (b :: chunk).takeWhile (fun x => x ≠ 0) ∧
        ((0 : Byte) ∉ b :: chunk → next.response = self.response ++ (b :: chunk)) ∧
        next.packet_timeout = p.now1 + 50) ∧
      (self.callback.isSome = true ∨ p.now2 < p.now1 + 50 → ∃ r, self.serve p = .ok r)) := by
  refine ⟨fun hf => ⟨?_, ?_, ?_, ?_⟩, fun b chunk hr hlen hbuf => ⟨?_, ?_⟩⟩
  · intro c next evs hs
    rw [serve_receive_fails self p hready hf] at hs
    obtain ⟨rfl, h2⟩ := serve_deadline_frame self next _ evs p.now1 c hs
    exact ⟨rfl, rfl, h2⟩
  · intro h
    rw [serve_receive_fails self p hready hf]
    exact serve_deadline_returns self _ p.now1 h
  · rw [serve_receive_fails self p hready hf,
      serve_receive_fails self ⟨p.send, none, p.now1, p.now2⟩ hready rfl]
  · rw [serve_receive_fails self p hready hf,
      serve_receive_fails self ⟨p.send, some [], p.now1, p.now2⟩ hready rfl]
  · intro c next evs hs
    rw [serve_receive_chunk self p b chunk hready hbuf hr hlen] at hs
    obtain ⟨rfl, -⟩ := serve_deadline_frame _ next _ evs p.now2 c hs
    refine ⟨rfl, fun hz => ?_, rfl⟩
    show self.response ++ (b :: chunk).takeWhile (fun x => x ≠ 0) = _
    rw [takeWhile_of_no_zero _ hz]
  · intro h
    rw [serve_receive_chunk self p b chunk hready hbuf hr hlen]
    exact serve_deadline_returns _ _ p.now2 h

/-- Witness for C17 (amended): the fully-sent example engine receives `ok` at
clock time 10. -/
theorem serve_receive_phase_witness :
    (example_sent 0).ready_to_receive = true ∧
    ((0 : Byte) ∉ bytes "ok") ∧
    ∀ (c : Bool) (next : async_http_request_t Nat) (evs : List (Event Nat)),
      (example_sent 0).serve ⟨true, some (111 :: [107]), 10, 10⟩ = .ok (c, next, evs) →
      next.response = (example_sent 0).response ++ (111 :: [107]).takeWhile (fun x => x ≠ 0) ∧
      ((0 : Byte) ∉ 111 :: [107] → next.response = (example_sent 0).response ++ (111 :: [107])) ∧
      next.packet_timeout = 10 + 50 :=
  ⟨by decide, by decide,
   ((serve_receive_phase (example_sent 0) ⟨true, some (111 :: [107]), 10, 10⟩ (by decide)).2
      111 [107] rfl (by decide) (example_sent_buffer 0)).1⟩

/-- Counterexample to C17 as stated: the fully-sent example engine holds `abc`
and receives the six bytes `89 50 4E 47 00 01` at clock time 10; the receive
succeeds, and the accumulator gains only the four bytes before the zero byte. -/
theorem serve_appends_up_to_zero_byte :
    (example_receiving (bytes "abc") 100).serve ⟨true, some [137, 80, 78, 71, 0, 1], 10, 10⟩
      = .ok (false, example_receiving (bytes "abc" ++ [137, 80, 78, 71]) 60,
          [Event.receive 4096]) ∧
    bytes "abc" ++ [137, 80, 78, 71] ≠ bytes "abc" ++ [137, 80, 78, 71, 0, 1] := by
  refine ⟨?_, by decide⟩
  rw [serve_receive_chunk (example_receiving (bytes "abc") 100) _ 137 [80, 78, 71, 0, 1]
    (by decide) (example_receiving_buffer _ _) (by decide) (by decide)]
  rfl

/-! ### `url_encode` can be decoded -/

set_option maxRecDepth 1000000 in
theorem unreserved_ne_percent (b : Byte) : isUnreserved b = true → b ≠ 37 := by
  revert b
  decide

set_option maxRecDepth 1000000 in
theorem nibbles_value (b : Byte) :
    (Fin.ofNat (16 * (b.val / 16) + b.val % 16) : Byte) = b := by
  revert b
  decide

theorem hexDigitValue_upperHexDigit (b : Byte) :
    hexDigitValue (upperHexDigit (b.val / 16)) = some (b.val / 16) ∧
    hexDigitValue (upperHexDigit (b.val % 16)) = some (b.val % 16) := by
  unfold hexDigitValue
  rw [(hexValue_upperHexDigit b).1, (hexValue_upperHexDigit b).2]
  exact ⟨rfl, rfl⟩

set_option maxRecDepth 1000000 in
theorem upperHexDigit_charset (b : Byte) :
    isUnreserved (upperHexDigit (b.val / 16)) = true ∧
    isUnreserved (upperHexDigit (b.val % 16)) = true := by
  revert b
  decide

theorem percent_decode_plain (a : Byte) (rest : Str) (h : a ≠ 37) :
    percent_decode (a :: rest) = a :: percent_decode rest := by
  rcases rest with _ | ⟨x, _ | ⟨y, rest⟩⟩
  · rfl
  · rfl
  · rw [percent_decode, if_neg h]

theorem percent_decode_encodeByte (b : Byte) (rest : Str) :
    percent_decode (encodeByte b ++ rest) = b :: percent_decode rest := by
  unfold encodeByte
  by_cases hu : isUnreserved b = true
  · rw [if_pos hu]
    exact percent_decode_plain b rest (unreserved_ne_percent b hu)
  · rw [if_neg hu]
    show percent_decode (37 :: upperHexDigit (b.val / 16) :: upperHexDigit (b.val % 16) :: rest)
      = _
    rw [percent_decode]
    simp only [if_true, (hexDigitValue_upperHexDigit b).1, (hexDigitValue_upperHexDigit b).2,
      nibbles_value]

theorem percent_decode_flatMap (s : Str) : percent_decode (s.flatMap encodeByte) = s := by
  induction s with
  | nil => simp [percent_decode]
  | cons b s ih => rw [List.flatMap_cons, percent_decode_encodeByte, ih]

theorem url_encode_eq_flatMap (s : Str) : url_encode s = s.flatMap encodeByte := by
  simp [url_encode, url_encode_loop_eq]

theorem encodeByte_charset (b c : Byte) (hc : c ∈ encodeByte b) :
    isUnreserved c = true ∨ c = 37 := by
  unfold encodeByte at hc
  by_cases hu : isUnreserved b = true
  · rw [if_pos hu] at hc
    simp only [List.mem_singleton] at hc
    exact Or.inl (hc ▸ hu)
  · rw [if_neg hu] at hc
    simp only [List.mem_cons, List.mem_singleton, List.not_mem_nil, or_false] at hc
    rcases hc with rfl | rfl | rfl
    · exact Or.inr rfl
    · exact Or.inl (upperHexDigit_charset b).1
    · exact Or.inl (upperHexDigit_charset b).2

theorem encodeByte_length (b : Byte) :
    (encodeByte b).length = 1 + 2 * (if isUnreserved b = true then 0 else 1) := by
  unfold encodeByte
  by_cases hu : isUnreserved b = true
  · simp [hu]
  · simp [hu]

/-- C18: the standard percent-decoder returns `s` from `url_encode s`, hence
`url_encode` is injective; the output consists of ASCII letters, ASCII digits,
`-`, `_`, `.`, `~` and `%` only, and its length is the length of `s` plus twice
the number of bytes of `s` outside the unreserved set. -/
theorem url_encode_decodable :
    (∀ s : Str, percent_decode (url_encode s) = s) ∧
    (∀ a b : Str, url_encode a = url_encode b → a = b) ∧
    (∀ s : Str, ∀ c ∈ url_encode s, isUnreserved c = true ∨ c = 37) ∧
    (∀ s : Str,
      (url_encode s).length = s.length + 2 * s.countP (fun b => !isUnreserved b)) := by
  have hdec : ∀ s : Str, percent_decode (url_encode s) = s := fun s => by
    rw [url_encode_eq_flatMap, percent_decode_flatMap]
  refine ⟨hdec, fun a b h => ?_, fun s c hc => ?_, fun s => ?_⟩
  · rw [← hdec a, ← hdec b, h]
  · rw [url_encode_eq_flatMap, List.mem_flatMap] at hc
    obtain ⟨b, -, hb⟩ := hc
    exact encodeByte_charset b c hb
  · rw [url_encode_eq_flatMap]
    induction s with
    | nil => rfl
    | cons b s ih =>
      rw [List.flatMap_cons, List.length_append, ih, encodeByte_length, List.countP_cons,
        List.length_cons]
      by_cases hu : isUnreserved b = true
      · simp [hu]
        omega
      · simp [hu]
        omega

/-! ### The first blank line of a request -/

theorem content_type_str_no_CR (ct : content_type_t) : CR ∉ content_type_str ct := by
  unfold content_type_str
  split_ifs <;> decide

theorem to_string_no_CR (n : Nat) : CR ∉ to_string n := by
  intro h
  rcases to_string_digits_mem _ _ _ _ h with h | h
  · simp at h
  · exact absurd h (by decide)

theorem header_lines_no_CR (headers : List (Str × Str))
    (h : ∀ x ∈ headers, CR ∉ x.1 ∧ CR ∉ x.2) :
    ∀ l ∈ headers.map (fun x => x.1 ++ bytes ": " ++ x.2), CR ∉ l ∧ l ≠ [] := by
  intro l hl
  obtain ⟨x, hx, rfl⟩ := List.mem_map.mp hl
  have hc : CR ∉ bytes ": " := by decide
  have hne : bytes ": " ≠ [] := by decide
  refine ⟨?_, ?_⟩
  · simp only [List.mem_append, not_or]
    exact ⟨⟨(h x hx).1, hc⟩, (h x hx).2⟩
  · intro he
    simp only [List.append_eq_nil] at he
    exact hne he.1.2

theorem getLines_no_CR (host path : Str) (headers : List (Str × Str))
    (hhost : CR ∉ host) (hpath : CR ∉ path) (h : ∀ x ∈ headers, CR ∉ x.1 ∧ CR ∉ x.2) :
    ∀ l ∈ getLines host path headers, CR ∉ l ∧ l ≠ [] := by
  have h1 : bytes "GET " = 71 :: bytes "ET " := by decide
  have h2 : bytes "Host: " = 72 :: bytes "ost: " := by decide
  have c1 : CR ∉ bytes "ET " := by decide
  have c2 : CR ∉ bytes " HTTP/1.1" := by decide
  have c3 : CR ∉ bytes "ost: " := by decide
  have c4 : CR ∉ bytes "Connection: close" ∧ bytes "Connection: close" ≠ [] := by decide
  have n1 : ¬ CR = (71 : Byte) := by decide
  have n2 : ¬ CR = (72 : Byte) := by decide
  intro l hl
  simp only [getLines, List.mem_append, List.mem_cons, List.mem_singleton, List.not_mem_nil,
    or_false] at hl
  rcases hl with (((rfl | rfl) | hl) | rfl)
  · rw [h1]
    simp [c1, c2, hpath, n1]
  · rw [h2]
    simp [c3, hhost, n2]
  · exact header_lines_no_CR headers h l hl
  · exact c4

theorem postLines_no_CR (host path : Str) (headers : List (Str × Str)) (mime len : Str)
    (hhost : CR ∉ host) (hpath : CR ∉ path) (hmime : CR ∉ mime) (hlen : CR ∉ len)
    (h : ∀ x ∈ headers, CR ∉ x.1 ∧ CR ∉ x.2) :
    ∀ l ∈ postLines host path headers mime len, CR ∉ l ∧ l ≠ [] := by
  have h1 : bytes "POST " = 80 :: bytes "OST " := by decide
  have h2 : bytes "Host: " = 72 :: bytes "ost: " := by decide
  have h3 : bytes "Content-Type: " = 67 :: bytes "ontent-Type: " := by decide
  have h4 : bytes "Content-Length: " = 67 :: bytes "ontent-Length: " := by decide
  have c1 : CR ∉ bytes "OST " := by decide
  have c2 : CR ∉ bytes " HTTP/1.1" := by decide
  have c3 : CR ∉ bytes "ost: " := by decide
  have c4 : CR ∉ bytes "Connection: close" ∧ bytes "Connection: close" ≠ [] := by decide
  have c5 : CR ∉ bytes "ontent-Type: " := by decide
  have c6 : CR ∉ bytes "ontent-Length: " := by decide
  have n1 : ¬ CR = (80 : Byte) := by decide
  have n2 : ¬ CR = (72 : Byte) := by decide
  have n3 : ¬ CR = (67 : Byte) := by decide
  intro l hl
  simp only [postLines, List.mem_append, List.mem_cons, List.mem_singleton, List.not_mem_nil,
    or_false] at hl
  rcases hl with (((rfl | rfl | rfl | rfl) | hl) | rfl)
  · rw [h1]
    simp [c1, c2, hpath, n1]
  · rw [h2]
    simp [c3, hhost, n2]
  · rw [h3]
    simp [c5, hmime, n3]
  · rw [h4]
    simp [c6, hlen, n3]
  · exact header_lines_no_CR headers h l hl
  · exact c4

theorem find_skip_line (l rest pat : Str) (hl : CR ∉ l) :
    find (l ++ rest) (CR :: pat) = (find rest (CR :: pat)).map (· + l.length) := by
  induction l with
  | nil => simp
  | cons a l ih =>
    simp only [List.mem_cons, not_or] at hl
    have hnp : ¬ (CR :: pat).isPrefixOf (a :: (l ++ rest)) = true := by
      intro hp
      obtain ⟨r, hr⟩ := List.isPrefixOf_iff_prefix.mp hp
      simp only [List.cons_append, List.cons.injEq] at hr
      exact hl.1 hr.1
    show find (a :: (l ++ rest)) (CR :: pat) = _
    rw [find, if_neg hnp, ih hl.2, Option.map_map]
    congr 1

theorem find_skip_crlf (a : Byte) (rest : Str) (ha : a ≠ CR) :
    find (bytes "\r\n" ++ a :: rest) (bytes "\r\n\r\n")
      = (find (a :: rest) (bytes "\r\n\r\n")).map (· + 2) := by
  have h1 : bytes "\r\n" = [CR, LF] := by decide
  have h2 : bytes "\r\n\r\n" = [CR, LF, CR, LF] := by decide
  have hn1 : ¬ [CR, LF, CR, LF].isPrefixOf (CR :: LF :: a :: rest) = true := by
    intro hp
    obtain ⟨r, hr⟩ := List.isPrefixOf_iff_prefix.mp hp
    simp only [List.cons_append, List.cons.injEq] at hr
    exact ha hr.2.2.1.symm
  have hn2 : ¬ [CR, LF, CR, LF].isPrefixOf (LF :: a :: rest) = true := by
    intro hp
    obtain ⟨r, hr⟩ := List.isPrefixOf_iff_prefix.mp hp
    simp only [List.cons_append, List.cons.injEq] at hr
    exact absurd hr.1 (by decide)
  rw [h1, h2]
  show find (CR :: LF :: a :: rest) [CR, LF, CR, LF] = _
  rw [find, if_neg hn1, find, if_neg hn2, Option.map_map]
  congr 1

theorem find_blank (body : Str) :
    find (bytes "\r\n" ++ (bytes "\r\n" ++ body)) (bytes "\r\n\r\n") = some 0 := by
  have h1 : bytes "\r\n" = [CR, LF] := by decide
  have h2 : bytes "\r\n\r\n" = [CR, LF, CR, LF] := by decide
  have hp : [CR, LF, CR, LF].isPrefixOf (CR :: LF :: CR :: LF :: body) = true :=
    List.isPrefixOf_iff_prefix.mpr ⟨body, rfl⟩
  rw [h1, h2]
  show find (CR :: LF :: CR :: LF :: body) [CR, LF, CR, LF] = _
  rw [find, if_pos hp]

/-- In `lines`, each followed by CR LF, then an empty line, then any body, the
first blank line `CR LF CR LF` is the one right after the last line, when no
line is empty or contains a carriage return. -/
theorem find_blank_after_lines (l : Str) (lines : List Str) (body : Str)
    (h : ∀ m ∈ l :: lines, CR ∉ m ∧ m ≠ []) :
    find (((l :: lines).map (fun m => m ++ bytes "\r\n")).flatten ++ (bytes "\r\n" ++ body))
        (bytes "\r\n\r\n")
      = some (((l :: lines).map (fun m => m ++ bytes "\r\n")).flatten.length - 2) := by
  have h2 : bytes "\r\n\r\n" = CR :: [LF, CR, LF] := by decide
  have hcr : (bytes "\r\n").length = 2 := by decide
  induction lines generalizing l with
  | nil =>
    have hl := (h l (List.mem_cons_self _ _)).1
    simp only [List.map_cons, List.map_nil, List.flatten_cons, List.flatten_nil, List.append_nil,
      List.append_assoc]
    rw [h2, find_skip_line l _ _ hl, ← h2, find_blank]
    simp [hcr]
  | cons l2 lines ih =>
    have hl := (h l (List.mem_cons_self _ _)).1
    have hl2 := h l2 (List.mem_cons_of_mem _ (List.mem_cons_self _ _))
    have ih2 := ih l2 (fun m hm => h m (List.mem_cons_of_mem _ hm))
    obtain ⟨a, t, rfl⟩ : ∃ a t, l2 = a :: t := by
      cases l2 with
      | nil => exact absurd rfl hl2.2
      | cons a t => exact ⟨a, t, rfl⟩
    have ha : a ≠ CR := by
      intro e
      exact hl2.1 (by rw [e]; exact List.mem_cons_self _ _)
    rw [List.map_cons, List.flatten_cons, List.append_assoc, List.append_assoc, h2,
      find_skip_line l _ _ hl, ← h2]
    have hshape : (((a :: t) :: lines).map (fun m => m ++ bytes "\r\n")).flatten
        = a :: (t ++ bytes "\r\n" ++ (lines.map (fun m => m ++ bytes "\r\n")).flatten) := by
      simp
    rw [hshape] at ih2 ⊢
    rw [List.cons_append] at ih2 ⊢
    rw [find_skip_crlf a _ ha, ih2]
    simp only [Option.map_some', List.length_append, List.length_cons, hcr, Option.some.injEq]
    omega

theorem find_le_of_decomp (pat pre post : Str) :
    ∀ (s : Str) (i : Nat), find s pat = some i → s = pre ++ pat ++ post → i ≤ pre.length := by
  induction pre with
  | nil =>
    intro s i hf hs
    have hp : pat.isPrefixOf s = true := by
      rw [hs]
      exact List.isPrefixOf_iff_prefix.mpr ⟨post, by simp⟩
    cases s with
    | nil =>
      rw [find, if_pos hp] at hf
      simp only [Option.some.injEq] at hf
      omega
    | cons c t =>
      rw [find, if_pos hp] at hf
      simp only [Option.some.injEq] at hf
      omega
  | cons a pre ih =>
    intro s i hf hs
    subst hs
    rw [List.cons_append, List.cons_append, find] at hf
    by_cases hp : pat.isPrefixOf (a :: (pre ++ pat ++ post)) = true
    · rw [if_pos hp] at hf
      simp only [Option.some.injEq] at hf
      omega
    · rw [if_neg hp] at hf
      cases hrest : find (pre ++ pat ++ post) pat with
      | none =>
        rw [hrest] at hf
        exact absurd hf (by simp)
      | some j =>
        rw [hrest] at hf
        simp only [Option.map_some', Option.some.injEq] at hf
        have := ih _ j hrest rfl
        simp only [List.length_cons]
        omega

theorem specGetRequest_first_blank (host path : Str) (headers : List (Str × Str))
    (hhost : CR ∉ host) (hpath : CR ∉ path) (h : ∀ x ∈ headers, CR ∉ x.1 ∧ CR ∉ x.2) :
    find (specGetRequest host path headers) (bytes "\r\n\r\n")
      = some ((specGetRequest host path headers).length - 4) := by
  have h2 : (bytes "\r\n").length = 2 := by decide
  have hfind : find
      (((getLines host path headers).map (fun m => m ++ bytes "\r\n")).flatten
        ++ (bytes "\r\n" ++ [])) (bytes "\r\n\r\n")
      = some (((getLines host path headers).map (fun m => m ++ bytes "\r\n")).flatten.length
          - 2) :=
    find_blank_after_lines _ _ [] (getLines_no_CR host path headers hhost hpath h)
  rw [specGetRequest_lines]
  refine hfind.trans ?_
  congr 1
  simp only [List.length_append, h2, List.length_nil]
  omega

theorem specPostRequest_first_blank (host path : Str) (headers : List (Str × Str))
    (mime len body : Str) (hhost : CR ∉ host) (hpath : CR ∉ path) (hmime : CR ∉ mime)
    (hlen : CR ∉ len) (h : ∀ x ∈ headers, CR ∉ x.1 ∧ CR ∉ x.2) :
    find (specPostRequest host path headers mime len body) (bytes "\r\n\r\n")
      = some ((specPostRequest host path headers mime len body).length - 4 - body.length) := by
  have h2 : (bytes "\r\n").length = 2 := by decide
  have hfind : find
      (((postLines host path headers mime len).map (fun m => m ++ bytes "\r\n")).flatten
        ++ (bytes "\r\n" ++ body)) (bytes "\r\n\r\n")
      = some (((postLines host path headers mime len).map
          (fun m => m ++ bytes "\r\n")).flatten.length - 2) :=
    find_blank_after_lines _ _ body
      (postLines_no_CR host path headers mime len hhost hpath hmime hlen h)
  rw [specPostRequest_lines]
  refine hfind.trans ?_
  congr 1
  simp only [List.length_append, h2]
  omega

/-- C19: when neither the URL nor any stored header name or value contains a
carriage return or a line feed, the first occurrence of `CR LF CR LF` in the
request serialized by `get` and by `post` is the one that ends
`Connection: close CR LF CR LF`.  For `get` nothing follows it; for `post` what
follows is exactly the body that is sent, and the `Content-Length` line that
`post` emits carries the decimal numeral of the length of that body. -/
theorem first_blank_line (self : async_http_request_t Cb) (url : Str) (cb : Cb)
    (ct : content_type_t) (data host path : Str) (hp : parse_url url = some (host, path))
    (hurl : CR ∉ url ∧ LF ∉ url)
    (hheaders : ∀ x ∈ self.headers, (CR ∉ x.1 ∧ LF ∉ x.1) ∧ (CR ∉ x.2 ∧ LF ∉ x.2)) :
    (∃ head : Str,
      head = (bytes "GET " ++ path ++ bytes " HTTP/1.1\r\n")
        ++ (bytes "Host: " ++ host ++ bytes "\r\n")
        ++ (self.headers.map headerLine).flatten
        ++ bytes "Connection: close" ∧
      (self.get url cb true).1.request = head ++ bytes "\r\n\r\n" ∧
      ∀ pre post : Str, (self.get url cb true).1.request = pre ++ bytes "\r\n\r\n" ++ post →
        head.length ≤ pre.length) ∧
    (∃ head len : Str,
      head = (bytes "POST " ++ path ++ bytes " HTTP/1.1\r\n")
        ++ (bytes "Host: " ++ host ++ bytes "\r\n")
        ++ (bytes "Content-Type: " ++ content_type_str ct ++ bytes "\r\n")
        ++ (bytes "Content-Length: " ++ len ++ bytes "\r\n")
        ++ (self.headers.map headerLine).flatten
        ++ bytes "Connection: close" ∧
      decimalValue len = some (encoded_data ct data).length ∧
      (self.post url cb ct data true).1.request
        = head ++ bytes "\r\n\r\n" ++ encoded_data ct data ∧
      ∀ pre post : Str,
        (self.post url cb ct data true).1.request = pre ++ bytes "\r\n\r\n" ++ post →
        head.length ≤ pre.length) := by
  have hmem := parse_url_mem url host path hp
  have hhost : CR ∉ host := fun h => hurl.1 (hmem.1 _ h)
  have hpath : CR ∉ path := fun h => by
    rcases hmem.2 _ h with h2 | h2
    · exact hurl.1 h2
    · exact absurd h2 (by decide)
  have hcr : ∀ x ∈ self.headers, CR ∉ x.1 ∧ CR ∉ x.2 :=
    fun x hx => ⟨(hheaders x hx).1.1, (hheaders x hx).2.1⟩
  have hterm : terminator = bytes "Connection: close" ++ bytes "\r\n\r\n" := by decide
  have h4 : (bytes "\r\n\r\n").length = 4 := by decide
  have h2 : (bytes "\r\n").length = 2 := by decide
  refine ⟨⟨_, rfl, ?_, ?_⟩, ⟨_, to_string (encoded_data ct data).length, rfl,
    decimalValue_to_string _, ?_, ?_⟩⟩
  · rw [get_request_eq self url cb host path hp, specGetRequest, hterm]
    simp only [List.append_assoc]
  · intro pre post hdecomp
    have hreq := get_request_eq self url cb host path hp
    have hfind := specGetRequest_first_blank host path self.headers hhost hpath hcr
    rw [← hreq] at hfind
    have hle := find_le_of_decomp _ pre post _ _ hfind hdecomp
    have hl : (self.get url cb true).1.request.length
        = ((bytes "GET " ++ path ++ bytes " HTTP/1.1\r\n")
            ++ (bytes "Host: " ++ host ++ bytes "\r\n")
            ++ (self.headers.map headerLine).flatten
            ++ bytes "Connection: close").length + 4 := by
      rw [hreq, specGetRequest, hterm, ← h4, ← List.length_append]
      simp only [List.append_assoc]
    omega
  · rw [post_request_eq self url cb ct data host path hp, specPostRequest, hterm]
    simp only [List.append_assoc]
  · intro pre post hdecomp
    have hreq := post_request_eq self url cb ct data host path hp
    have hfind := specPostRequest_first_blank host path self.headers (content_type_str ct)
      (to_string (encoded_data ct data).length) (encoded_data ct data) hhost hpath
      (content_type_str_no_CR ct) (to_string_no_CR _) hcr
    rw [← hreq] at hfind
    have hle := find_le_of_decomp _ pre post _ _ hfind hdecomp
    have hl : (self.post url cb ct data true).1.request.length
        = ((bytes "POST " ++ path ++ bytes " HTTP/1.1\r\n")
            ++ (bytes "Host: " ++ host ++ bytes "\r\n")
            ++ (bytes "Content-Type: " ++ content_type_str ct ++ bytes "\r\n")
            ++ (bytes "Content-Length: " ++ to_string (encoded_data ct data).length
              ++ bytes "\r\n")
            ++ (self.headers.map headerLine).flatten
            ++ bytes "Connection: close").length + 4 + (encoded_data ct data).length := by
      rw [hreq, specPostRequest, hterm, ← h4, ← List.length_append, ← List.length_append]
      simp only [List.append_assoc]
    omega

/-- Witness for C19: the headers and the URL of the example program. -/
theorem first_blank_line_witness :
    parse_url (bytes "http://postman-echo.com/post")
      = some (bytes "postman-echo.com", bytes "/post") ∧
    (CR ∉ bytes "http://postman-echo.com/post" ∧ LF ∉ bytes "http://postman-echo.com/post") ∧
    (∀ x ∈ example_headers.headers, (CR ∉ x.1 ∧ LF ∉ x.1) ∧ (CR ∉ x.2 ∧ LF ∉ x.2)) ∧
    ∃ head : Str,
      head = (bytes "GET " ++ bytes "/post" ++ bytes " HTTP/1.1\r\n")
        ++ (bytes "Host: " ++ bytes "postman-echo.com" ++ bytes "\r\n")
        ++ (example_headers.headers.map headerLine).flatten
        ++ bytes "Connection: close" ∧
      (example_headers.get (bytes "http://postman-echo.com/post") 7 true).1.request
        = head ++ bytes "\r\n\r\n" ∧
      ∀ pre post : Str,
        (example_headers.get (bytes "http://postman-echo.com/post") 7 true).1.request
          = pre ++ bytes "\r\n\r\n" ++ post →
        head.length ≤ pre.length :=
  ⟨by decide, by decide, by decide,
   (first_blank_line example_headers (bytes "http://postman-echo.com/post") 7
      content_type_t.form_urlencoded (bytes "a b") (bytes "postman-echo.com") (bytes "/post")
      (by decide) (by decide) (by decide)).1⟩

end async_http
